import Mathlib

/-!
Verification development for the greenOak test-case generation pipeline
(src/dataset.py, src/model.py, src/trainer.py).

Python text is modelled as `List Char` (`Txt`).  The string primitives
follow Python semantics: `findSub` is `str.find` for a substring
(first occurrence), `splitOnSub` is `str.split(sep)` for a non-empty
separator, `pyStrip` is `str.strip()` restricted to the ASCII whitespace
characters, `replaceSub` is `str.replace`, and `List.intercalate` plays the
role of `sep.join`.
-/

abbrev Txt := List Char

/-- Python `str.strip` whitespace set (ASCII part): space, tab, newline,
carriage return, vertical tab, form feed. -/
def wsB (c : Char) : Bool :=
  (c = ' ') || (c = Char.ofNat 9) || (c = Char.ofNat 10) ||
  (c = Char.ofNat 13) || (c = Char.ofNat 11) || (c = Char.ofNat 12)

/-- Left part of Python `str.strip`. -/
def stripL (t : Txt) : Txt := t.dropWhile wsB

/-- Right part of Python `str.strip`. -/
def stripR (t : Txt) : Txt := (t.reverse.dropWhile wsB).reverse

/-- Python `str.strip()`. -/
def pyStrip (t : Txt) : Txt := stripR (stripL t)

/-- Index of the first occurrence of `m` as a contiguous substring of `t`
(Python `str.find`, `none` for `-1`). -/
def findSub (m : Txt) : Txt → Option Nat
  | [] => if m.isPrefixOf [] then some 0 else none
  | c :: t => if m.isPrefixOf (c :: t) then some 0 else (findSub m t).map (· + 1)

/-- Python's substring containment test (`sub in s`). -/
def containsSub (m t : Txt) : Bool := (findSub m t).isSome

/-- Fuel-driven worker for `splitOnSub`; structural recursion on the fuel so
that the kernel can evaluate it on concrete input. -/
def splitOnSubF : Nat → Txt → Txt → List Txt
  | 0, _, t => [t]
  | fuel + 1, m, t =>
    match findSub m t with
    | none => [t]
    | some i => t.take i :: splitOnSubF fuel m (t.drop (i + m.length))

/-- Python `str.split(sep)` for a non-empty separator `m`. -/
def splitOnSub (m t : Txt) : List Txt := splitOnSubF (t.length + 1) m t

/-- Python `str.replace(pat, repl)` (all non-overlapping occurrences,
scanning left to right). -/
def replaceSub (pat repl t : Txt) : Txt := List.intercalate repl (splitOnSub pat t)

/-- Python `part.find` for `'['` followed by slicing `part[:end_idx]`
(model.py line 49-52): everything strictly before the first `'['`, or the
whole text when there is none. -/
def takeUpToBracket (p : Txt) : Txt := p.takeWhile (fun c => !(c == '['))

/-- The loop `for part in parts[1:]: sections[token] = part[:end_idx].strip()`
of model.py lines 48-52: every part overwrites the entry, so the final value
comes from the last part. -/
def assignParts : List Txt → Option Txt → Option Txt
  | [], acc => acc
  | p :: ps, _ => assignParts ps (some (pyStrip (takeUpToBracket p)))

/-- Characters written via their code points. -/
def quoteC : Char := Char.ofNat 34

def bslashC : Char := Char.ofNat 92

def lbraceC : Char := Char.ofNat 123

def rbraceC : Char := Char.ofNat 125

def nlC : Char := Char.ofNat 10

def tabC : Char := Char.ofNat 9

def crC : Char := Char.ofNat 13

def aposC : Char := Char.ofNat 39

def spTxt : Txt := [' ']

/- JSON values as produced by Python's `json` module, with numbers
restricted to integers (floating point is outside this model).  Arrays and
objects carry their children through the mutual types `JsonL` / `JsonKVs`
so that all recursion over values is plain structural recursion. -/
mutual
/-- JSON value. -/
inductive Json where
  | null : Json
  | jbool (b : Bool) : Json
  | num (n : Int) : Json
  | jstr (s : Txt) : Json
  | arr (xs : JsonL) : Json
  | obj (kvs : JsonKVs) : Json

inductive JsonL where
  | nil : JsonL
  | cons (x : Json) (xs : JsonL) : JsonL

inductive JsonKVs where
  | nil : JsonKVs
  | cons (k : Txt) (v : Json) (rest : JsonKVs) : JsonKVs
end

def toJL : List Json → JsonL
  | [] => JsonL.nil
  | x :: xs => JsonL.cons x (toJL xs)

def ofKVs : List (Txt × Json) → JsonKVs
  | [] => JsonKVs.nil
  | kv :: rest => JsonKVs.cons kv.1 kv.2 (ofKVs rest)

def hexDigit (n : Nat) : Char := if n < 10 then Char.ofNat (48 + n) else Char.ofNat (87 + n)

def escU (n : Nat) : Txt :=
  [bslashC, 'u', hexDigit ((n / 4096) % 16), hexDigit ((n / 256) % 16),
   hexDigit ((n / 16) % 16), hexDigit (n % 16)]

/-- Escape of one character inside a JSON string literal, following
`json.dumps` with its default `ensure_ascii=True` (characters outside
0x20-0x7e are `\uXXXX`-escaped). -/
def jescChar (c : Char) : Txt :=
  if c = quoteC then [bslashC, quoteC]
  else if c = bslashC then [bslashC, bslashC]
  else if c = nlC then [bslashC, 'n']
  else if c = tabC then [bslashC, 't']
  else if c = crC then [bslashC, 'r']
  else if c = Char.ofNat 8 then [bslashC, 'b']
  else if c = Char.ofNat 12 then [bslashC, 'f']
  else if c.toNat < 32 || 127 ≤ c.toNat then escU c.toNat
  else [c]

def dumpString (s : Txt) : Txt := quoteC :: List.flatten (s.map jescChar) ++ [quoteC]

def intToTxt (n : Int) : Txt := (toString n).data

def commaSp : Txt := [',', ' ']

def colonSp : Txt := [':', ' ']

mutual
/-- Python `json.dumps` with the default separators `', '` and `': '`. -/
def jdumps : Json → Txt
  | .null => (r"null").data
  | .jbool true => (r"true").data
  | .jbool false => (r"false").data
  | .num n => intToTxt n
  | .jstr s => dumpString s
  | .arr xs => '[' :: List.intercalate commaSp (jdumpsItems xs) ++ [']']
  | .obj kvs => lbraceC :: List.intercalate commaSp (jdumpsFields kvs) ++ [rbraceC]

def jdumpsItems : JsonL → List Txt
  | JsonL.nil => []
  | JsonL.cons x xs => jdumps x :: jdumpsItems xs

def jdumpsFields : JsonKVs → List Txt
  | JsonKVs.nil => []
  | JsonKVs.cons k v rest => (dumpString k ++ colonSp ++ jdumps v) :: jdumpsFields rest
end

mutual
/-- Python `repr` of a value parsed from JSON (the quote choice for strings
is simplified to a single quote). -/
def pyRepr : Json → Txt
  | .null => (r"None").data
  | .jbool true => (r"True").data
  | .jbool false => (r"False").data
  | .num n => intToTxt n
  | .jstr s => aposC :: s ++ [aposC]
  | .arr xs => '[' :: List.intercalate commaSp (pyReprItems xs) ++ [']']
  | .obj kvs => lbraceC :: List.intercalate commaSp (pyReprFields kvs) ++ [rbraceC]

def pyReprItems : JsonL → List Txt
  | JsonL.nil => []
  | JsonL.cons x xs => pyRepr x :: pyReprItems xs

def pyReprFields : JsonKVs → List Txt
  | JsonKVs.nil => []
  | JsonKVs.cons k v rest => (aposC :: k ++ [aposC] ++ colonSp ++ pyRepr v) :: pyReprFields rest
end

/-- Python `str()` applied to a value parsed from JSON, as used by the
f-string interpolations in dataset.py: a string interpolates as itself,
containers interpolate via `repr`. -/
def pyStr (j : Json) : Txt :=
  match j with
  | .jstr s => s
  | _ => pyRepr j

/-- Python truthiness of a value parsed from JSON. -/
def truthy : Json → Bool
  | .null => false
  | .jbool b => b
  | .num n => n != 0
  | .jstr s => !s.isEmpty
  | .arr JsonL.nil => false
  | .arr (JsonL.cons _ _) => true
  | .obj JsonKVs.nil => false
  | .obj (JsonKVs.cons _ _ _) => true

/-- Lookup in a Python dict built from JSON key-value pairs (a duplicated
key keeps the last occurrence, as `json.load` does). -/
def jLookup : JsonKVs → Txt → Option Json
  | JsonKVs.nil, _ => none
  | JsonKVs.cons k' v rest, k =>
    match jLookup rest k with
    | some r => some r
    | none => if k' = k then some v else none

def asStrs : JsonL → Option (List Txt)
  | JsonL.nil => some []
  | JsonL.cons x xs =>
    match x with
    | Json.jstr s => (asStrs xs).map (fun l => s :: l)
    | _ => none

def kvKeys : JsonKVs → List Txt
  | JsonKVs.nil => []
  | JsonKVs.cons k _ rest => k :: kvKeys rest

/-- Python `' '.join(v)` on a value parsed from JSON: defined on any
iterable of strings (a list of strings, a string — iterating its
characters — or a dict — iterating its keys), `TypeError` otherwise. -/
def pyJoinVal : Json → Option Txt
  | .arr xs => (asStrs xs).map (List.intercalate spTxt)
  | .jstr s => some (List.intercalate spTxt (s.map (fun c => [c])))
  | .obj kvs => some (List.intercalate spTxt (kvKeys kvs))
  | _ => none

/-- JSON whitespace accepted between tokens by `json.loads`. -/
def jsonWs (c : Char) : Bool := (c = ' ') || (c = tabC) || (c = nlC) || (c = crC)

def skipWs (t : Txt) : Txt := t.dropWhile jsonWs

/-- Unescape of the character following a backslash in a JSON string
(`\uXXXX` escapes are outside the model and make the parse fail). -/
def unescChar (c : Char) : Option Char :=
  if c = quoteC then some quoteC
  else if c = bslashC then some bslashC
  else if c = '/' then some '/'
  else if c = 'n' then some nlC
  else if c = 't' then some tabC
  else if c = 'r' then some crC
  else if c = 'b' then some (Char.ofNat 8)
  else if c = 'f' then some (Char.ofNat 12)
  else none

/-- Parse the body of a JSON string literal, after the opening quote. -/
def parseStringF : Txt → Option (Txt × Txt)
  | [] => none
  | c :: rest =>
    if c = quoteC then some ([], rest)
    else if c = bslashC then
      match rest with
      | [] => none
      | e :: rest2 =>
        (unescChar e).bind fun u => (parseStringF rest2).map (fun pr => (u :: pr.1, pr.2))
    else if c.toNat < 32 then none
    else (parseStringF rest).map (fun pr => (c :: pr.1, pr.2))

def isDigitC (c : Char) : Bool := 48 ≤ c.toNat && c.toNat ≤ 57

def digitsToNat (ds : Txt) : Nat := ds.foldl (fun a c => a * 10 + (c.toNat - 48)) 0

/-- Parse a JSON unsigned integer literal; a fraction or exponent marks a
float, which is outside the model. -/
def parseNatPart (t : Txt) : Option (Nat × Txt) :=
  let ds := t.takeWhile isDigitC
  let rest := t.drop ds.length
  if ds.isEmpty then none
  else if 1 < ds.length && ds.headD '0' = '0' then none
  else
    match rest with
    | '.' :: _ => none
    | 'e' :: _ => none
    | 'E' :: _ => none
    | _ => some (digitsToNat ds, rest)

def parseIntF : Txt → Option (Int × Txt)
  | '-' :: rest => (parseNatPart rest).map (fun pr => (-(Int.ofNat pr.1), pr.2))
  | t => (parseNatPart t).map (fun pr => ((pr.1 : Int), pr.2))

/-- Parser modes: a single value, the items of an array after `[`, the
fields of an object after `{`. -/
inductive PTag where
  | pval : PTag
  | pitems : PTag
  | pfields : PTag

inductive PRes where
  | rv (j : Json) : PRes
  | rvs (xs : List Json) : PRes
  | rkvs (kvs : List (Txt × Json)) : PRes

/-- Recursive-descent JSON parser, fuel-driven; mirrors the grammar
accepted by Python `json.loads` on the modelled fragment. -/
def parseF : Nat → PTag → Txt → Option (PRes × Txt)
  | 0, _, _ => none
  | fuel + 1, PTag.pval, t0 =>
    match skipWs t0 with
    | [] => none
    | c :: rest =>
      if c = quoteC then (parseStringF rest).map (fun pr => (PRes.rv (.jstr pr.1), pr.2))
      else if c = '[' then
        match skipWs rest with
        | ']' :: rest2 => some (PRes.rv (.arr JsonL.nil), rest2)
        | _ =>
          (parseF fuel PTag.pitems rest).bind fun pr =>
            match pr.1 with
            | PRes.rvs xs => some (PRes.rv (.arr (toJL xs)), pr.2)
            | _ => none
      else if c = lbraceC then
        match skipWs rest with
        | c2 :: rest2 =>
          if c2 = rbraceC then some (PRes.rv (.obj JsonKVs.nil), rest2)
          else
            (parseF fuel PTag.pfields rest).bind fun pr =>
              match pr.1 with
              | PRes.rkvs kvs => some (PRes.rv (.obj (ofKVs kvs)), pr.2)
              | _ => none
        | [] => none
      else if c = 'n' then
        if (r"ull").data.isPrefixOf rest then some (PRes.rv .null, rest.drop 3) else none
      else if c = 't' then
        if (r"rue").data.isPrefixOf rest then some (PRes.rv (.jbool true), rest.drop 3) else none
      else if c = 'f' then
        if (r"alse").data.isPrefixOf rest then some (PRes.rv (.jbool false), rest.drop 4) else none
      else (parseIntF (c :: rest)).map (fun pr => (PRes.rv (.num pr.1), pr.2))
  | fuel + 1, PTag.pitems, t =>
    (parseF fuel PTag.pval t).bind fun pr =>
      match pr.1 with
      | PRes.rv j =>
        (match skipWs pr.2 with
         | ',' :: rest =>
           (parseF fuel PTag.pitems rest).bind fun pr2 =>
             match pr2.1 with
             | PRes.rvs xs => some (PRes.rvs (j :: xs), pr2.2)
             | _ => none
         | ']' :: rest => some (PRes.rvs [j], rest)
         | _ => none)
      | _ => none
  | fuel + 1, PTag.pfields, t =>
    match skipWs t with
    | c :: rest =>
      if c = quoteC then
        (parseStringF rest).bind fun pk =>
          match skipWs pk.2 with
          | c2 :: rest2 =>
            if c2 = ':' then
              (parseF fuel PTag.pval rest2).bind fun pv =>
                match pv.1 with
                | PRes.rv j =>
                  (match skipWs pv.2 with
                   | ',' :: rest3 =>
                     (parseF fuel PTag.pfields rest3).bind fun pr2 =>
                       match pr2.1 with
                       | PRes.rkvs kvs => some (PRes.rkvs ((pk.1, j) :: kvs), pr2.2)
                       | _ => none
                   | c3 :: rest3 =>
                     if c3 = rbraceC then some (PRes.rkvs [(pk.1, j)], rest3) else none
                   | [] => none)
                | _ => none
            else none
          | [] => none
      else none
    | [] => none

/-- Python `json.loads` on the modelled fragment: one JSON value with
optional surrounding whitespace, `none` on any parse error. -/
def jloads (t : Txt) : Option Json :=
  match parseF (2 * t.length + 2) PTag.pval t with
  | some (PRes.rv j, rest) => if (skipWs rest).isEmpty then some j else none
  | _ => none

/-- The eight section markers (model.py lines 16-21). -/
def mFEATURE : Txt := (r"[FEATURE]").data

def mTYPE : Txt := (r"[TYPE]").data

def mDOMAIN : Txt := (r"[DOMAIN]").data

def mSCENARIO : Txt := (r"[SCENARIO]").data

def mSTEPS : Txt := (r"[STEPS]").data

def mEXPECTED : Txt := (r"[EXPECTED]").data

def mDATA : Txt := (r"[DATA]").data

def mREQUIREMENTS : Txt := (r"[REQUIREMENTS]").data

def padTok : Txt := (r"<pad>").data

def eosTok : Txt := (r"</s>").data

/-- The five target-side markers, in the order format_output scans them. -/
def targetMarkers : List Txt := [ mSCENARIO, mSTEPS, mEXPECTED, mDATA, mREQUIREMENTS]

/-- model.py lines 25-35, `TestCaseGenerator.format_input`: unconditional
`[FEATURE]`/`[TYPE]` sections, `[DOMAIN]` iff `domain` is truthy; note the
result is NOT stripped. -/
def format_input (fd ft tt : Txt) (dom : Option Txt) : Txt :=
  mFEATURE ++ spTxt ++ fd ++ spTxt ++ mTYPE ++ spTxt ++ ft ++ spTxt ++ tt ++ spTxt ++
    (match dom with
     | some d => if d.isEmpty then [] else mDOMAIN ++ spTxt ++ d
     | none => [])

/-- model.py line 41: `output_text.replace("<pad>", "").replace("</s>", "")`. -/
def stripArtifacts (t : Txt) : Txt := replaceSub eosTok [] (replaceSub padTok [] t)

/-- model.py lines 45-52 for one marker: `if token in output_text` guards a
split on the token; each later part overwrites the section value. -/
def sectionFor (mark t : Txt) : Option Txt :=
  if containsSub mark t then assignParts (splitOnSub mark t).tail none else none

/-- model.py lines 57-60: `[s.strip() for s in x.split('\n') if s.strip()]`. -/
def splitLinesClean (s : Txt) : List Txt :=
  ((splitOnSub [nlC] s).map pyStrip).filter (fun x => !x.isEmpty)

def emptyObjTxt : Txt := [lbraceC, rbraceC]

/-- The raw text handed to `json.loads` in model.py line 59:
`sections.get('[DATA]', '{}')` over the cleaned output text. -/
def dataSectionRaw (t : Txt) : Txt := (sectionFor mDATA (stripArtifacts t)).getD emptyObjTxt

/-- The structured decode result (model.py lines 55-61). -/
structure GenResult where
  scenario : Txt
  steps : List Txt
  expected_results : List Txt
  test_data : Json
  requirements : List Txt

/-- model.py lines 37-64, `TestCaseGenerator.format_output`.  The whole body
runs inside `try:`; the only step that can raise on a text input is
`json.loads`, and the `except` handler returns the empty dict `{}`, which
this model renders as `none`. -/
def format_output (t : Txt) : Option GenResult :=
  let c := stripArtifacts t
  match jloads (dataSectionRaw t) with
  | none => none
  | some j =>
    some { scenario := (sectionFor mSCENARIO c).getD []
           steps := splitLinesClean ((sectionFor mSTEPS c).getD [])
           expected_results := splitLinesClean ((sectionFor mEXPECTED c).getD [])
           test_data := j
           requirements := splitLinesClean ((sectionFor mREQUIREMENTS c).getD []) }

/-- Record keys used by dataset.py lines 36-52. -/
def kFD : Txt := (r"feature_description").data

def kFT : Txt := (r"feature_type").data

def kTT : Txt := (r"test_type").data

def kDOM : Txt := (r"domain").data

def kSC : Txt := (r"scenario").data

def kST : Txt := (r"steps").data

def kEX : Txt := (r"expected_results").data

def kTD : Txt := (r"test_data").data

def kRQ : Txt := (r"requirements").data

/-- dataset.py lines 33-60, the body of the per-record loop of
`TestCaseDataset.load_data`.  A record is a value parsed from JSON; any of
the exceptions the Python body can raise (`KeyError` for a missing required
key, `TypeError` for subscripting a non-dict record or joining a
non-iterable-of-strings) is modelled as `none`, which the enclosing
`except` clause turns into skipping the record. -/
def processItem (item : Json) : Option (Txt × Txt) :=
  match item with
  | .obj kvs =>
    (jLookup kvs kFD).bind fun vfd =>
    (jLookup kvs kFT).bind fun vft =>
    (jLookup kvs kTT).bind fun vtt =>
    let inputT :=
      mFEATURE ++ spTxt ++ pyStr vfd ++ spTxt ++
      mTYPE ++ spTxt ++ pyStr vft ++ spTxt ++ pyStr vtt ++ spTxt ++
      (match jLookup kvs kDOM with
       | some vd => if truthy vd then mDOMAIN ++ spTxt ++ pyStr vd else []
       | none => [])
    let t1 :=
      match jLookup kvs kSC with
      | some v => mSCENARIO ++ spTxt ++ pyStr v ++ spTxt
      | none => []
    (match jLookup kvs kST with
     | some v => (pyJoinVal v).map (fun s => mSTEPS ++ spTxt ++ s ++ spTxt)
     | none => some []).bind fun t2 =>
    (match jLookup kvs kEX with
     | some v => (pyJoinVal v).map (fun s => mEXPECTED ++ spTxt ++ s ++ spTxt)
     | none => some []).bind fun t3 =>
    let t4 :=
      match jLookup kvs kTD with
      | some v => mDATA ++ spTxt ++ jdumps v ++ spTxt
      | none => []
    (match jLookup kvs kRQ with
     | some v => (pyJoinVal v).map (fun s => mREQUIREMENTS ++ spTxt ++ s)
     | none => some []).bind fun t5 =>
    some (pyStrip inputT, pyStrip (t1 ++ t2 ++ t3 ++ t4 ++ t5))
  | _ => none

/-- dataset.py lines 32-62: per-record processing with the `try/except`
skip policy — exactly the records whose processing succeeds survive, in
their original order. -/
def processRecords (records : List Json) : List (Txt × Txt) :=
  records.filterMap processItem

/-- `pathlib.PurePath.name`: the final path component (paths are assumed
already normalised, without a trailing slash). -/
def pyName (path : Txt) : Txt := (path.reverse.takeWhile (fun c => c ≠ '/')).reverse

/-- Index of the last occurrence of a character (Python `str.rfind`). -/
def rfindIdx (c : Char) : Txt → Option Nat
  | [] => none
  | d :: rest =>
    match rfindIdx c rest with
    | some i => some (i + 1)
    | none => if d = c then some 0 else none

/-- `pathlib.PurePath.suffix` (CPython rule: the part of the name from its
last dot, provided that dot is neither the first nor the last character). -/
def pySuffix (path : Txt) : Txt :=
  let name := pyName path
  match rfindIdx '.' name with
  | some i => if 0 < i ∧ i < name.length - 1 then name.drop i else []
  | none => []

/-- Outcome of the source-resolution prefix of `load_data`
(dataset.py lines 18-30). -/
inductive LoadDispatch where
  | missingSource : LoadDispatch
  | jsonFormat : LoadDispatch
  | csvFormat : LoadDispatch
  | formatErr (ext : Txt) : LoadDispatch

/-- dataset.py lines 18-30: `FileNotFoundError` when the path does not
exist, then dispatch on `Path(data_path).suffix`, raising `ValueError`
naming the unsupported suffix. -/
def loadDispatch (fileExists : Bool) (path : Txt) : LoadDispatch :=
  if !fileExists then LoadDispatch.missingSource
  else if pySuffix path = (r".json").data then LoadDispatch.jsonFormat
  else if pySuffix path = (r".csv").data then LoadDispatch.csvFormat
  else LoadDispatch.formatErr (pySuffix path)

/-- Python list subscript `data[idx]` with an `int` index: negative indices
count from the end; out-of-range raises `IndexError` (`none`). -/
def pyListGet {α : Type} (l : List α) (i : Int) : Option α :=
  let j : Int := if i < 0 then i + l.length else i
  if 0 ≤ j ∧ j < l.length then l.get? j.toNat else none

/-- Result of the external tokenizer call in dataset.py lines 71-85:
fixed-shape id and mask sequences for one text.  The tokenizer itself is an
external collaborator and is abstracted as a function argument. -/
structure TokEnc where
  input_ids : List Nat
  attention_mask : List Nat

/-- The dict returned by `TestCaseDataset.__getitem__` (dataset.py
lines 87-91). -/
structure TokenizedExample where
  input_ids : List Nat
  attention_mask : List Nat
  labels : List Nat

/-- The tokenization step of `__getitem__` (dataset.py lines 70-91): ids and
mask from the input text, labels from the target text. -/
def mkTok (tok : Txt → TokEnc) (item : Txt × Txt) : TokenizedExample :=
  { input_ids := (tok item.1).input_ids
    attention_mask := (tok item.1).attention_mask
    labels := (tok item.2).input_ids }

/-- dataset.py lines 67-91, `TestCaseDataset.__getitem__`: plain Python
list indexing into the processed data, then tokenization of both texts. -/
def dsGetItem (tok : Txt → TokEnc) (data : List (Txt × Txt)) (idx : Int) :
    Option TokenizedExample :=
  (pyListGet data idx).map (mkTok tok)

/-- The comparison `val_loss < best_val_loss` of trainer.py line 104, where
`best_val_loss` starts as `float('inf')` (modelled as `none`). -/
def ltBest (l : ℚ) (best : Option ℚ) : Bool :=
  match best with
  | none => true
  | some b => decide (l < b)

/-- trainer.py lines 60-106, the best-checkpoint state machine of
`TestCaseTrainer.train`: epoch indices at which `save_checkpoint('best')`
runs, given the per-epoch validation losses. -/
def bestSavesAux : List ℚ → Option ℚ → Nat → List Nat
  | [], _, _ => []
  | l :: ls, best, i =>
    if ltBest l best then i :: bestSavesAux ls (some l) (i + 1)
    else bestSavesAux ls best (i + 1)

def bestSaves (losses : List ℚ) : List Nat := bestSavesAux losses none 0

/-- The epoch whose parameters the `best` checkpoint holds at the end of a
run: the last epoch that overwrote it. -/
def lastBestSave (losses : List ℚ) : Option Nat := (bestSaves losses).getLast?

/-- Statement-side builders: a JSON record with the given typed fields, for
quantifying over well-typed input records. -/
def optSeg (k : Txt) (v : Option Json) : List (Txt × Json) :=
  match v with
  | some x => [(k, x)]
  | none => []

def strArr (l : List Txt) : Json := Json.arr (toJL (l.map Json.jstr))

def mkItemKVs (fd ft tt : Txt) (dom sc : Option Txt) (st ex : Option (List Txt))
    (td : Option Json) (rq : Option (List Txt)) : List (Txt × Json) :=
  [(kFD, Json.jstr fd), (kFT, Json.jstr ft), (kTT, Json.jstr tt)]
    ++ optSeg kDOM (dom.map Json.jstr) ++ optSeg kSC (sc.map Json.jstr)
    ++ optSeg kST (st.map strArr) ++ optSeg kEX (ex.map strArr)
    ++ optSeg kTD td ++ optSeg kRQ (rq.map strArr)

def mkItem (fd ft tt : Txt) (dom sc : Option Txt) (st ex : Option (List Txt))
    (td : Option Json) (rq : Option (List Txt)) : Json :=
  Json.obj (ofKVs (mkItemKVs fd ft tt dom sc st ex td rq))

def joinSp (l : List Txt) : Txt := List.intercalate spTxt l

/-- The input-text builder of dataset.py lines 36-39, at the level of typed
string fields (`item['domain']` truthiness for a string is non-emptiness). -/
def inputRawT (fd ft tt : Txt) (dom : Option Txt) : Txt :=
  mFEATURE ++ spTxt ++ fd ++ spTxt ++ mTYPE ++ spTxt ++ ft ++ spTxt ++ tt ++ spTxt ++
    (match dom with
     | some d => if d.isEmpty then [] else mDOMAIN ++ spTxt ++ d
     | none => [])

/-- dataset.py line 55: the stored `input_text` is stripped. -/
def datasetInputText (fd ft tt : Txt) (dom : Option Txt) : Txt :=
  pyStrip (inputRawT fd ft tt dom)

/-- One target section of dataset.py lines 43-50: `"[MARK] {value} "`,
emitted iff the key is present. -/
def secPart (mark : Txt) (o : Option Txt) : Txt :=
  match o with
  | some v => mark ++ spTxt ++ v ++ spTxt
  | none => []

/-- The final target section of dataset.py lines 51-52, without the
trailing space. -/
def secPartLast (mark : Txt) (o : Option Txt) : Txt :=
  match o with
  | some v => mark ++ spTxt ++ v
  | none => []

/-- The target-text builder of dataset.py lines 42-52, at the level of
already-rendered optional section payloads. -/
def targetRawT (sc st ex td rq : Option Txt) : Txt :=
  secPart mSCENARIO sc ++ secPart mSTEPS st ++ secPart mEXPECTED ex ++
    secPart mDATA td ++ secPartLast mREQUIREMENTS rq

/-- dataset.py line 56: the stored `target_text` is stripped. -/
def datasetTargetText (sc st ex td rq : Option Txt) : Txt :=
  pyStrip (targetRawT sc st ex td rq)

/-- A well-formed record for the partial-failure scenario: the three
required keys with string values. -/
def c6Good : Json :=
  Json.obj (ofKVs [(kFD, Json.jstr (r"login").data), (kFT, Json.jstr (r"API").data),
    (kTT, Json.jstr (r"Security Testing").data)])

/-- A malformed record: the required key `feature_description` is missing,
so the Python body raises `KeyError` and the record is skipped. -/
def c6Bad : Json :=
  Json.obj (ofKVs [(kFT, Json.jstr (r"API").data)])

/-- Ten well-formed records with two malformed ones interleaved. -/
def c6Records : List Json :=
  List.replicate 4 c6Good ++ [c6Bad] ++ List.replicate 6 c6Good ++ [c6Bad]

/-- Content well-formedness for a field value embedded in the marker
encoding: non-empty would be separate; this records bracket-freeness,
newline-freeness, and no leading/trailing strip-whitespace. -/
def headNotWs (t : Txt) : Bool :=
  match t with
  | [] => true
  | c :: _ => !wsB c

def wfVal (t : Txt) : Bool :=
  !t.contains '[' && !t.contains nlC && headNotWs t && headNotWs t.reverse

/-- The property of beginning with `m`. -/
def prefixAt (m t : Txt) : Prop := ∃ r, t = m ++ r

/-- A text `x` is search-transparent for the pattern `m` when prepending it
shifts every search result without creating occurrences. -/
def SafePre (m x : Txt) : Prop :=
  ∀ y, findSub m (x ++ y) = (findSub m y).map (· + x.length)

/-- The property of containing `m` as a contiguous substring. -/
def occursIn (m t : Txt) : Prop := ∃ u v, t = u ++ m ++ v

theorem isPrefixOf_iff (m t : Txt) : m.isPrefixOf t = true ↔ prefixAt m t := by
  induction m generalizing t with
  | nil =>
    cases t <;> simp [List.isPrefixOf, prefixAt]
  | cons c m ih =>
    cases t with
    | nil => simp [List.isPrefixOf, prefixAt]
    | cons d t =>
      simp only [List.isPrefixOf, Bool.and_eq_true, beq_iff_eq, ih, prefixAt]
      constructor
      · rintro ⟨rfl, r, rfl⟩
        exact ⟨r, rfl⟩
      · rintro ⟨r, h⟩
        cases h
        exact ⟨rfl, r, rfl⟩

theorem isPrefixOf_append_self (m t : Txt) : m.isPrefixOf (m ++ t) = true :=
  (isPrefixOf_iff m (m ++ t)).mpr ⟨t, rfl⟩

theorem findSub_none (m t : Txt) (h : findSub m t = none) :
    ∀ i, ¬ prefixAt m (t.drop i) := by
  induction t with
  | nil =>
    intro i hp
    rcases hp with ⟨r, hr⟩
    simp only [List.drop_nil] at hr
    rcases List.append_eq_nil.mp hr.symm with ⟨hm, _⟩
    subst hm
    simp [findSub, List.isPrefixOf] at h
  | cons c t ih =>
    intro i hp
    cases hpre : m.isPrefixOf (c :: t) with
    | true => simp [findSub, hpre] at h
    | false =>
      simp only [findSub, hpre, Bool.false_eq_true, if_false] at h
      cases hfind : findSub m t with
      | some k => rw [hfind] at h; simp at h
      | none =>
        cases i with
        | zero =>
          rw [(isPrefixOf_iff m (c :: t)).mpr hp] at hpre
          exact Bool.true_eq_false.mp hpre
        | succ i => exact ih hfind i hp

theorem findSub_some (m t : Txt) (i : Nat) (h : findSub m t = some i) :
    prefixAt m (t.drop i) ∧ ∀ j, j < i → ¬ prefixAt m (t.drop j) := by
  induction t generalizing i with
  | nil =>
    cases hpre : m.isPrefixOf ([] : Txt) with
    | true =>
      simp only [findSub, hpre, if_true, Option.some_inj] at h
      subst h
      exact ⟨(isPrefixOf_iff _ _).mp hpre, fun j hj => absurd hj (Nat.not_lt_zero j)⟩
    | false => simp [findSub, hpre] at h
  | cons c t ih =>
    cases hpre : m.isPrefixOf (c :: t) with
    | true =>
      simp only [findSub, hpre, if_true, Option.some_inj] at h
      subst h
      exact ⟨(isPrefixOf_iff _ _).mp hpre, fun j hj => absurd hj (Nat.not_lt_zero j)⟩
    | false =>
      simp only [findSub, hpre, Bool.false_eq_true, if_false] at h
      rcases Option.map_eq_some.mp h with ⟨i', hi', rfl⟩
      rcases ih i' hi' with ⟨h1, h2⟩
      refine ⟨h1, ?_⟩
      intro j hj hp
      cases j with
      | zero =>
        rw [(isPrefixOf_iff m (c :: t)).mpr hp] at hpre
        exact Bool.true_eq_false.mp hpre
      | succ j => exact h2 j (Nat.lt_of_succ_lt_succ hj) hp

theorem findSub_some_bound (m t : Txt) (i : Nat) (hm : m ≠ [])
    (h : findSub m t = some i) : i + m.length ≤ t.length := by
  rcases (findSub_some m t i h).1 with ⟨r, hr⟩
  have hlen : t.length - i = m.length + r.length := by
    have := congrArg List.length hr
    simpa [List.length_drop] using this
  have hm1 : 1 ≤ m.length := by
    cases m with
    | nil => exact absurd rfl hm
    | cons _ _ => simp
  omega

theorem containsSub_iff (m t : Txt) :
    containsSub m t = true ↔ occursIn m t := by
  constructor
  · intro h
    rcases Option.isSome_iff_exists.mp h with ⟨i, hi⟩
    rcases (findSub_some m t i hi).1 with ⟨r, hr⟩
    have ht : t = t.take i ++ (m ++ r) := by rw [← hr, List.take_append_drop]
    rw [← List.append_assoc] at ht
    exact ⟨t.take i, r, ht⟩
  · rintro ⟨u, v, rfl⟩
    unfold containsSub
    cases hf : findSub m (u ++ m ++ v) with
    | some i => simp
    | none =>
      exfalso
      refine findSub_none m _ hf u.length ⟨v, ?_⟩
      rw [List.append_assoc, List.drop_left]

theorem containsSub_false_iff (m t : Txt) :
    containsSub m t = false ↔ ¬ occursIn m t := by
  rw [← containsSub_iff m t]
  cases containsSub m t <;> simp

theorem splitOnSubF_congr (f1 : Nat) : ∀ (f2 : Nat) (m t : Txt), m ≠ [] →
    t.length < f1 → t.length < f2 → splitOnSubF f1 m t = splitOnSubF f2 m t := by
  induction f1 with
  | zero => intro f2 m t _ h1 _; omega
  | succ f1 ih =>
    intro f2 m t hm h1 h2
    cases f2 with
    | zero => omega
    | succ f2 =>
      cases hf : findSub m t with
      | none => simp only [splitOnSubF, hf]
      | some i =>
        have hb := findSub_some_bound m t i hm hf
        have hm1 : 1 ≤ m.length := by
          cases m with
          | nil => exact absurd rfl hm
          | cons _ _ => simp
        have hlt : (t.drop (i + m.length)).length < t.length := by
          simp only [List.length_drop]; omega
        simp only [splitOnSubF, hf]
        rw [ih f2 m (t.drop (i + m.length)) hm (by omega) (by omega)]

theorem splitOnSub_of_none (m t : Txt) (h : findSub m t = none) :
    splitOnSub m t = [t] := by
  unfold splitOnSub
  simp only [splitOnSubF, h]

theorem splitOnSub_of_some (m t : Txt) (i : Nat) (hm : m ≠ [])
    (hf : findSub m t = some i) :
    splitOnSub m t = t.take i :: splitOnSub m (t.drop (i + m.length)) := by
  have hb := findSub_some_bound m t i hm hf
  have hm1 : 1 ≤ m.length := by
    cases m with
    | nil => exact absurd rfl hm
    | cons _ _ => simp
  have hlt : (t.drop (i + m.length)).length < t.length := by
    simp only [List.length_drop]; omega
  conv_lhs => unfold splitOnSub
  simp only [splitOnSubF, hf]
  rw [splitOnSubF_congr t.length ((t.drop (i + m.length)).length + 1) m
    (t.drop (i + m.length)) hm (by omega) (by omega)]
  rfl

theorem splitOnSub_ne_nil (m t : Txt) (hm : m ≠ []) : splitOnSub m t ≠ [] := by
  cases hf : findSub m t with
  | none => rw [splitOnSub_of_none m t hf]; simp
  | some i => rw [splitOnSub_of_some m t i hm hf]; simp

theorem findSub_nil (m : Txt) (hm : m ≠ []) : findSub m [] = none := by
  cases m with
  | nil => exact absurd rfl hm
  | cons c m => rfl

theorem intercalate_single (s a : Txt) : List.intercalate s [a] = a := by
  simp [List.intercalate]

theorem intercalate_cons (s a : Txt) (l : List Txt) (h : l ≠ []) :
    List.intercalate s (a :: l) = a ++ s ++ List.intercalate s l := by
  cases l with
  | nil => exact absurd rfl h
  | cons b l => simp [List.intercalate, List.intersperse]

theorem splitOnSub_join_aux (m : Txt) (hm : m ≠ []) :
    ∀ (n : Nat) (t : Txt), t.length ≤ n →
      List.intercalate m (splitOnSub m t) = t := by
  intro n
  induction n with
  | zero =>
    intro t ht
    have : t = [] := List.length_eq_zero.mp (Nat.le_zero.mp ht)
    subst this
    rw [splitOnSub_of_none m [] (findSub_nil m hm), intercalate_single]
  | succ n ih =>
    intro t ht
    cases hf : findSub m t with
    | none => rw [splitOnSub_of_none m t hf, intercalate_single]
    | some i =>
      rw [splitOnSub_of_some m t i hm hf]
      have hb := findSub_some_bound m t i hm hf
      have hm1 : 1 ≤ m.length := by
        cases m with
        | nil => exact absurd rfl hm
        | cons _ _ => simp
      have hlen : (t.drop (i + m.length)).length ≤ n := by
        simp only [List.length_drop]; omega
      rw [intercalate_cons m _ _ (splitOnSub_ne_nil m _ hm), ih _ hlen]
      rcases (findSub_some m t i hf).1 with ⟨r, hr⟩
      have hdrop : t.drop (i + m.length) = r := by
        have h1 : t.drop (i + m.length) = (t.drop i).drop m.length := by
          rw [List.drop_drop, Nat.add_comm]
        rw [h1, hr, List.drop_left]
      rw [hdrop, List.append_assoc, ← hr, List.take_append_drop]

theorem splitOnSub_join (m t : Txt) (hm : m ≠ []) :
    List.intercalate m (splitOnSub m t) = t :=
  splitOnSub_join_aux m hm t.length t (Nat.le_refl _)

theorem splitOnSub_parts_aux (m : Txt) (hm : m ≠ []) :
    ∀ (n : Nat) (t : Txt), t.length ≤ n →
      ∀ p ∈ splitOnSub m t, ¬ occursIn m p := by
  intro n
  induction n with
  | zero =>
    intro t ht p hp hocc
    have : t = [] := List.length_eq_zero.mp (Nat.le_zero.mp ht)
    subst this
    rw [splitOnSub_of_none m [] (findSub_nil m hm)] at hp
    rcases List.mem_singleton.mp hp with rfl
    rcases hocc with ⟨u, v, huv⟩
    have := congrArg List.length huv
    simp only [List.length_nil, List.length_append] at this
    cases m with
    | nil => exact absurd rfl hm
    | cons _ _ => simp at this; omega
  | succ n ih =>
    intro t ht p hp
    cases hf : findSub m t with
    | none =>
      rw [splitOnSub_of_none m t hf] at hp
      rcases List.mem_singleton.mp hp with rfl
      rintro ⟨u, v, rfl⟩
      refine findSub_none m _ hf u.length ⟨v, ?_⟩
      rw [List.append_assoc, List.drop_left]
    | some i =>
      rw [splitOnSub_of_some m t i hm hf] at hp
      have hb := findSub_some_bound m t i hm hf
      have hm1 : 1 ≤ m.length := by
        cases m with
        | nil => exact absurd rfl hm
        | cons _ _ => simp
      rcases List.mem_cons.mp hp with rfl | hp'
      · rintro ⟨u, v, huv⟩
        have hlen := congrArg List.length huv
        simp only [List.length_take, List.length_append] at hlen
        have hmin : min i t.length = i := by omega
        rw [hmin] at hlen
        have hiu : u.length < i := by omega
        refine (findSub_some m t i hf).2 u.length hiu ⟨v ++ t.drop i, ?_⟩
        have hsplit : t = t.take i ++ t.drop i := (List.take_append_drop i t).symm
        calc t.drop u.length
            = (t.take i ++ t.drop i).drop u.length := by rw [← hsplit]
          _ = (t.take i).drop u.length ++ (t.drop i).drop (u.length - (t.take i).length) := by
              rw [List.drop_append_eq_append_drop]
          _ = (t.take i).drop u.length ++ t.drop i := by
              have : u.length - (t.take i).length = 0 := by
                simp only [List.length_take]; omega
              rw [this, List.drop_zero]
          _ = (m ++ v) ++ t.drop i := by
              rw [huv, List.append_assoc, List.drop_left]
          _ = m ++ (v ++ t.drop i) := by rw [List.append_assoc]
      · exact ih (t.drop (i + m.length)) (by simp only [List.length_drop]; omega) p hp'

theorem splitOnSub_parts (m t : Txt) (hm : m ≠ []) :
    ∀ p ∈ splitOnSub m t, ¬ occursIn m p :=
  splitOnSub_parts_aux m hm t.length t (Nat.le_refl _)

theorem assignParts_last : ∀ (l : List Txt) (acc : Option Txt), l ≠ [] →
    assignParts l acc = l.getLast?.map (fun p => pyStrip (takeUpToBracket p)) := by
  intro l
  induction l with
  | nil => intro acc h; exact absurd rfl h
  | cons p ps ih =>
    intro acc _
    cases ps with
    | nil => rfl
    | cons q qs =>
      show assignParts (q :: qs) (some (pyStrip (takeUpToBracket p))) = _
      rw [ih _ (by simp), List.getLast?_cons_cons]

theorem safePre_nil (m : Txt) : SafePre m [] := by
  intro y
  simp only [List.nil_append, List.length_nil]
  cases findSub m y <;> simp

theorem safePre_append {m x x' : Txt} (hx : SafePre m x) (hx' : SafePre m x') :
    SafePre m (x ++ x') := by
  intro y
  rw [List.append_assoc, hx (x' ++ y), hx' y]
  cases findSub m y with
  | none => simp
  | some i => simp [List.length_append]; omega

theorem safePre_noBrk {m : Txt} (mr : Txt) (hmeq : m = '[' :: mr) :
    ∀ {x : Txt}, '[' ∉ x → SafePre m x := by
  intro x
  induction x with
  | nil => intro _; exact safePre_nil m
  | cons c x ih =>
    intro hx
    simp only [List.mem_cons, not_or] at hx
    have hne : c ≠ '[' := fun h => hx.1 h.symm
    intro y
    have hpre : m.isPrefixOf (c :: (x ++ y)) = false := by
      subst hmeq
      cases hp : ('[' :: mr).isPrefixOf (c :: (x ++ y)) with
      | false => rfl
      | true =>
        exfalso
        rcases (isPrefixOf_iff _ _).mp hp with ⟨r, hr⟩
        simp only [List.cons_append, List.cons.injEq] at hr
        exact hne hr.1
    show findSub m (c :: (x ++ y)) = (findSub m y).map (· + (x.length + 1))
    rw [findSub, hpre]
    simp only [Bool.false_eq_true, if_false]
    rw [ih hx.2 y]
    cases findSub m y with
    | none => simp
    | some i => simp; omega

theorem safePre_otherMarker {m m' : Txt} (mr mr' : Txt)
    (hmeq : m = '[' :: mr) (hm'eq : m' = '[' :: mr')
    (hmr' : '[' ∉ mr')
    (h3 : m.take 3 ≠ m'.take 3) (hl : 3 ≤ m.length) (hl' : 3 ≤ m'.length) :
    SafePre m m' := by
  intro y
  have hpre : m.isPrefixOf (m' ++ y) = false := by
    cases hp : m.isPrefixOf (m' ++ y) with
    | false => rfl
    | true =>
      exfalso
      rcases (isPrefixOf_iff _ _).mp hp with ⟨r, hr⟩
      apply h3
      have e1 : (m' ++ y).take 3 = m'.take 3 := by
        rw [List.take_append_eq_append_take]
        have h0 : 3 - m'.length = 0 := by omega
        rw [h0]
        simp
      have e2 : (m' ++ y).take 3 = m.take 3 := by
        rw [hr, List.take_append_eq_append_take]
        have h0 : 3 - m.length = 0 := by omega
        rw [h0]
        simp
      rw [← e2, e1]
  have hx : SafePre m mr' := safePre_noBrk mr hmeq hmr'
  have hshape : m' ++ y = '[' :: (mr' ++ y) := by rw [hm'eq]; rfl
  rw [hshape] at hpre ⊢
  rw [findSub, hpre]
  simp only [Bool.false_eq_true, if_false]
  rw [hx y]
  have hlen : m'.length = mr'.length + 1 := by rw [hm'eq]; simp
  cases findSub m y with
  | none => simp
  | some i => simp [hlen]; omega

theorem findSub_of_safePre {m x : Txt} (hm : m ≠ []) (h : SafePre m x) :
    findSub m x = none := by
  have hx := h []
  rw [List.append_nil, findSub_nil m hm] at hx
  simpa using hx

theorem findSub_marker_self (m w : Txt) (hm : m ≠ []) :
    findSub m (m ++ w) = some 0 := by
  cases m with
  | nil => exact absurd rfl hm
  | cons c m' =>
    have hp : (c :: m').isPrefixOf ((c :: m') ++ w) = true := isPrefixOf_append_self _ _
    show findSub (c :: m') (c :: (m' ++ w)) = some 0
    rw [findSub]
    simp only [List.cons_append] at hp
    rw [hp]
    simp

theorem findSub_safePre_marker {m x w : Txt} (hm : m ≠ []) (hx : SafePre m x) :
    findSub m (x ++ m ++ w) = some x.length := by
  rw [List.append_assoc, hx (m ++ w), findSub_marker_self m w hm]
  simp

theorem split_two {m x w : Txt} (hm : m ≠ []) (hx : SafePre m x)
    (hw : findSub m w = none) : splitOnSub m (x ++ m ++ w) = [x, w] := by
  have hf : findSub m (x ++ m ++ w) = some x.length := findSub_safePre_marker hm hx
  rw [splitOnSub_of_some m _ x.length hm hf]
  have h1 : (x ++ m ++ w).take x.length = x := by
    rw [List.append_assoc, List.take_append_eq_append_take]
    simp
  have h2 : (x ++ m ++ w).drop (x.length + m.length) = w := by
    have : x.length + m.length = (x ++ m).length := by simp
    rw [this, List.drop_left]
  rw [h1, h2, splitOnSub_of_none m w hw]

theorem containsSub_safePre_marker {m x w : Txt} (hm : m ≠ []) (hx : SafePre m x) :
    containsSub m (x ++ m ++ w) = true := by
  unfold containsSub
  rw [findSub_safePre_marker hm hx]
  rfl

theorem containsSub_of_safePre {m t : Txt} (hm : m ≠ []) (h : SafePre m t) :
    containsSub m t = false := by
  unfold containsSub
  rw [findSub_of_safePre hm h]
  rfl

theorem sectionFor_present {m x w : Txt} (hm : m ≠ []) (hx : SafePre m x)
    (hw : findSub m w = none) :
    sectionFor m (x ++ m ++ w) = some (pyStrip (takeUpToBracket w)) := by
  unfold sectionFor
  rw [containsSub_safePre_marker hm hx, split_two hm hx hw]
  rfl

theorem sectionFor_absent {m t : Txt} (h : findSub m t = none) :
    sectionFor m t = none := by
  unfold sectionFor
  have : containsSub m t = false := by unfold containsSub; rw [h]; rfl
  rw [this]
  rfl

theorem stripL_eq_self {t : Txt} (h : headNotWs t = true) : stripL t = t := by
  cases t with
  | nil => rfl
  | cons c t =>
    have hc : wsB c = false := by simpa [headNotWs] using h
    simp [stripL, List.dropWhile, hc]

theorem stripR_eq_self {t : Txt} (h : headNotWs t.reverse = true) : stripR t = t := by
  unfold stripR
  cases ht : t.reverse with
  | nil =>
    have : t = [] := by simpa using congrArg List.reverse ht
    subst this
    rfl
  | cons c r =>
    have hc : wsB c = false := by rw [ht] at h; simpa [headNotWs] using h
    simp only [List.dropWhile, hc, Bool.false_eq_true, if_false]
    have h3 := congrArg List.reverse ht
    rw [List.reverse_reverse] at h3
    exact h3.symm

theorem pyStrip_eq_self {t : Txt} (h1 : headNotWs t = true)
    (h2 : headNotWs t.reverse = true) : pyStrip t = t := by
  unfold pyStrip
  rw [stripL_eq_self h1, stripR_eq_self h2]

theorem stripL_cons_sp (t : Txt) : stripL (spTxt ++ t) = stripL t := by
  show stripL (' ' :: t) = stripL t
  simp [stripL, List.dropWhile, wsB]

theorem stripR_append_sp (t : Txt) : stripR (t ++ spTxt) = stripR t := by
  unfold stripR
  rw [List.reverse_append]
  show ((' ' :: t.reverse).dropWhile wsB).reverse = _
  simp [List.dropWhile, wsB]

theorem pyStrip_sp_pad {B : Txt} (h1 : headNotWs B = true)
    (h2 : headNotWs B.reverse = true) : pyStrip (spTxt ++ B ++ spTxt) = B := by
  unfold pyStrip
  rw [List.append_assoc, stripL_cons_sp]
  cases B with
  | nil => rfl
  | cons c B' =>
    have hh : headNotWs ((c :: B') ++ spTxt) = true := by
      simpa [headNotWs] using h1
    rw [stripL_eq_self hh, stripR_append_sp, stripR_eq_self h2]

theorem pyStrip_sp_left {B : Txt} (h1 : headNotWs B = true)
    (h2 : headNotWs B.reverse = true) : pyStrip (spTxt ++ B) = B := by
  unfold pyStrip
  rw [stripL_cons_sp, stripL_eq_self h1, stripR_eq_self h2]

theorem takeUpToBracket_append {B rest : Txt} (hB : '[' ∉ B) :
    takeUpToBracket (B ++ '[' :: rest) = B := by
  induction B with
  | nil => simp [takeUpToBracket, List.takeWhile]
  | cons c B' ih =>
    simp only [List.mem_cons, not_or] at hB
    have hceq : (c == '[') = false := by
      simp only [beq_eq_false_iff_ne]
      exact fun h => hB.1 h.symm
    show takeUpToBracket (c :: (B' ++ '[' :: rest)) = c :: B'
    simp only [takeUpToBracket, List.takeWhile, hceq] at ih ⊢
    simp only [Bool.not_false]
    rw [ih hB.2]

theorem takeUpToBracket_all {B : Txt} (hB : '[' ∉ B) :
    takeUpToBracket B = B := by
  induction B with
  | nil => rfl
  | cons c B' ih =>
    simp only [List.mem_cons, not_or] at hB
    have hceq : (c == '[') = false := by
      simp only [beq_eq_false_iff_ne]
      exact fun h => hB.1 h.symm
    simp only [takeUpToBracket, List.takeWhile, hceq] at ih ⊢
    simp only [Bool.not_false]
    rw [ih hB.2]

theorem occursIn_reverse {m t : Txt} (h : occursIn m t) :
    occursIn m.reverse t.reverse := by
  rcases h with ⟨u, v, rfl⟩
  exact ⟨v.reverse, u.reverse, by simp⟩

theorem occursIn_dropWhile {m : Txt} (hm : headNotWs m = true) (hmne : m ≠ [])
    {x : Txt} (h : occursIn m x) : occursIn m (x.dropWhile wsB) := by
  rcases h with ⟨u, v, rfl⟩
  induction u with
  | nil =>
    cases m with
    | nil => exact absurd rfl hmne
    | cons c m' =>
      have hc : wsB c = false := by simpa [headNotWs] using hm
      refine ⟨[], v, ?_⟩
      show ((c :: m' ++ v).dropWhile wsB) = _
      simp only [List.cons_append, List.dropWhile, hc]
      simp
  | cons d u' ih =>
    have hcons : (d :: u') ++ m ++ v = d :: (u' ++ m ++ v) := rfl
    rw [hcons]
    cases hd : wsB d with
    | true =>
      have hstep : (d :: (u' ++ m ++ v)).dropWhile wsB = (u' ++ m ++ v).dropWhile wsB := by
        simp only [List.dropWhile, hd]
      rw [hstep]
      exact ih
    | false =>
      have hstep : (d :: (u' ++ m ++ v)).dropWhile wsB = d :: (u' ++ m ++ v) := by
        simp only [List.dropWhile, hd, Bool.false_eq_true]
      rw [hstep]
      exact ⟨d :: u', v, rfl⟩

theorem occursIn_pyStrip {m t : Txt} (hmne : m ≠ []) (h1 : headNotWs m = true)
    (h2 : headNotWs m.reverse = true) (h : occursIn m t) :
    occursIn m (pyStrip t) := by
  have hL : occursIn m (stripL t) := occursIn_dropWhile h1 hmne h
  have hRrev : occursIn m.reverse (stripL t).reverse := occursIn_reverse hL
  have hmne' : m.reverse ≠ [] := by
    intro hc
    exact hmne (by simpa using congrArg List.reverse hc)
  have hdw : occursIn m.reverse ((stripL t).reverse.dropWhile wsB) :=
    occursIn_dropWhile h2 hmne' hRrev
  have := occursIn_reverse hdw
  simpa [pyStrip, stripR] using this

theorem pyStrip_decomp (t : Txt) : ∃ a b, t = a ++ pyStrip t ++ b := by
  refine ⟨t.takeWhile wsB, ((stripL t).reverse.takeWhile wsB).reverse, ?_⟩
  have h1 : t.takeWhile wsB ++ stripL t = t := by
    unfold stripL
    exact List.takeWhile_append_dropWhile wsB t
  have h3 := congrArg List.reverse (List.takeWhile_append_dropWhile wsB (stripL t).reverse)
  rw [List.reverse_append, List.reverse_reverse] at h3
  have h2 : stripL t = pyStrip t ++ ((stripL t).reverse.takeWhile wsB).reverse := by
    unfold pyStrip stripR
    exact h3.symm
  calc t = t.takeWhile wsB ++ stripL t := h1.symm
    _ = t.takeWhile wsB ++ (pyStrip t ++ ((stripL t).reverse.takeWhile wsB).reverse) := by
        rw [← h2]
    _ = t.takeWhile wsB ++ pyStrip t ++ ((stripL t).reverse.takeWhile wsB).reverse := by
        rw [List.append_assoc]

theorem occursIn_of_pyStrip {m t : Txt} (h : occursIn m (pyStrip t)) :
    occursIn m t := by
  rcases h with ⟨u, v, huv⟩
  rcases pyStrip_decomp t with ⟨a, b, hab⟩
  refine ⟨a ++ u, v ++ b, ?_⟩
  rw [hab, huv]
  simp [List.append_assoc]

/-- C7: constructing the Example Store from a path that does not exist
fails with the missing-source error (`FileNotFoundError`), and from an
existing file whose extension is neither `.json` nor `.csv` fails fast with
the format error (`ValueError`) naming the offending extension; in neither
case does the dispatch reach a data-returning branch. -/
theorem C7_load_dispatch_errors (path : Txt) (ex : Bool) :
    (ex = false → loadDispatch ex path = LoadDispatch.missingSource) ∧
    (ex = true → pySuffix path ≠ (r".json").data → pySuffix path ≠ (r".csv").data →
      loadDispatch ex path = LoadDispatch.formatErr (pySuffix path)) := by
  constructor
  · rintro rfl
    rfl
  · rintro rfl h1 h2
    unfold loadDispatch
    simp [h1, h2]

theorem C7_witness :
    loadDispatch false ((r"data.json").data) = LoadDispatch.missingSource ∧
    loadDispatch true ((r"data.txt").data) = LoadDispatch.formatErr ((r".txt").data) := by
  constructor
  · exact (C7_load_dispatch_errors ((r"data.json").data) false).1 rfl
  · have h := (C7_load_dispatch_errors ((r"data.txt").data) true).2 rfl
      (by decide) (by decide)
    rw [h]
    rfl

/-- C8: `format_output` on the raw string `"[SCENARIO] Login works"`, which
contains none of the other four markers, returns scenario `"Login works"`,
empty steps, expected results and requirements, and the empty object as
test data. -/
theorem C8_decode_degradation :
    format_output ( mSCENARIO ++ (r" Login works").data) =
      some { scenario := (r"Login works").data, steps := [],
             expected_results := [], test_data := Json.obj JsonKVs.nil,
             requirements := [] } := by
  rfl

/-- C10: the Example Store does not enforce `0 <= index < length()`: for a
loaded store of length `n ≥ 1`, a negative index `-n ≤ i < 0` returns the
tokenized example at position `n + i` (Python negative-index semantics)
instead of failing, while an index with `|i| > n` raises `IndexError`
(modelled as `none`). -/
theorem C10_negative_indexing (tok : Txt → TokEnc) (data : List (Txt × Txt))
    (i : Int) (_hn : 1 ≤ data.length) :
    (-(data.length : Int) ≤ i → i < 0 →
      dsGetItem tok data i =
        (data.get? ((data.length : Int) + i).toNat).map (mkTok tok)) ∧
    (data.length < i.natAbs → dsGetItem tok data i = none) := by
  constructor
  · intro h1 h2
    simp only [dsGetItem, pyListGet]
    rw [if_pos h2, if_pos (by constructor <;> omega)]
    rw [Int.add_comm]
  · intro habs
    simp only [dsGetItem, pyListGet]
    by_cases hlt : i < 0
    · rw [if_pos hlt, if_neg]
      · rfl
      · intro hcl
        omega
    · rw [if_neg hlt, if_neg]
      · rfl
      · intro hcl
        omega

theorem ltBest_some {l b : ℚ} (h : ltBest l (some b) = true) : l < b := by
  simpa [ltBest] using h

theorem ltBest_some_false {l b : ℚ} (h : ltBest l (some b) = false) : b ≤ l := by
  simpa [ltBest] using h

theorem bestSavesAux_mem (ls : List ℚ) : ∀ (best : Option ℚ) (i0 j : Nat),
    j ∈ bestSavesAux ls best i0 ↔
      ∃ k, k < ls.length ∧ j = i0 + k ∧
        (∀ b, best = some b → ls.getD k 0 < b) ∧
        (∀ l, l < k → ls.getD k 0 < ls.getD l 0) := by
  induction ls with
  | nil =>
    intro best i0 j
    simp [bestSavesAux]
  | cons l ls ih =>
    intro best i0 j
    cases hsave : ltBest l best with
    | true =>
      simp only [bestSavesAux, hsave, if_true, List.mem_cons]
      constructor
      · rintro (rfl | hmem)
        · refine ⟨0, by simp, by omega, ?_, ?_⟩
          · intro b hb
            subst hb
            simpa [List.getD_cons_zero] using ltBest_some hsave
          · intro l' hl'
            omega
        · rcases (ih (some l) (i0 + 1) j).mp hmem with ⟨k, hk, hj, hbest, hpre⟩
          refine ⟨k + 1, by simpa using Nat.succ_lt_succ hk, by omega, ?_, ?_⟩
          · intro b hb
            have hxl : ls.getD k 0 < l := hbest l rfl
            have hlb : l < b := by
              subst hb
              exact ltBest_some hsave
            rw [List.getD_cons_succ]
            exact lt_trans hxl hlb
          · intro l' hl'
            cases l' with
            | zero =>
              rw [List.getD_cons_succ, List.getD_cons_zero]
              exact hbest l rfl
            | succ l'' =>
              rw [List.getD_cons_succ, List.getD_cons_succ]
              exact hpre l'' (by omega)
      · rintro ⟨k, hk, hj, hbest, hpre⟩
        cases k with
        | zero => left; omega
        | succ k' =>
          right
          apply (ih (some l) (i0 + 1) j).mpr
          refine ⟨k', by simpa using Nat.lt_of_succ_lt_succ hk, by omega, ?_, ?_⟩
          · intro b hb
            injection hb with hb'
            subst hb'
            have := hpre 0 (by omega)
            rw [List.getD_cons_succ, List.getD_cons_zero] at this
            exact this
          · intro l'' hl''
            have := hpre (l'' + 1) (by omega)
            rw [List.getD_cons_succ, List.getD_cons_succ] at this
            exact this
    | false =>
      simp only [bestSavesAux, hsave, Bool.false_eq_true, if_false]
      rw [ih best (i0 + 1) j]
      have hbsome : ∃ b, best = some b := by
        cases best with
        | none => simp [ltBest] at hsave
        | some b => exact ⟨b, rfl⟩
      rcases hbsome with ⟨b0, rfl⟩
      have hble : b0 ≤ l := ltBest_some_false hsave
      constructor
      · rintro ⟨k, hk, hj, hbest, hpre⟩
        refine ⟨k + 1, by simpa using Nat.succ_lt_succ hk, by omega, ?_, ?_⟩
        · intro b hb
          rw [List.getD_cons_succ]
          exact hbest b hb
        · intro l' hl'
          cases l' with
          | zero =>
            rw [List.getD_cons_succ, List.getD_cons_zero]
            exact lt_of_lt_of_le (hbest b0 rfl) hble
          | succ l'' =>
            rw [List.getD_cons_succ, List.getD_cons_succ]
            exact hpre l'' (by omega)
      · rintro ⟨k, hk, hj, hbest, hpre⟩
        cases k with
        | zero =>
          exfalso
          have hlb := hbest b0 rfl
          rw [List.getD_cons_zero] at hlb
          exact absurd hlb (not_lt.mpr hble)
        | succ k' =>
          refine ⟨k', by simpa using Nat.lt_of_succ_lt_succ hk, by omega, ?_, ?_⟩
          · intro b hb
            have := hbest b hb
            rw [List.getD_cons_succ] at this
            exact this
          · intro l'' hl''
            have := hpre (l'' + 1) (by omega)
            rw [List.getD_cons_succ, List.getD_cons_succ] at this
            exact this

/-- C9: across every training run, the `best` checkpoint is overwritten at
the end of epoch `i` iff that epoch's validation loss is strictly lower
than every preceding epoch's validation loss (this is exactly "strictly
lower than the lowest so far", and the first epoch always beats the initial
`float('inf')`); in particular, for the 3-epoch run with validation losses
`[0.9, 0.5, 0.7]` the last overwrite happens at epoch index 1, so `best`
holds the epoch-2 parameters. -/
theorem C9_best_checkpoint :
    (∀ (losses : List ℚ) (i : Nat),
      i ∈ bestSaves losses ↔
        i < losses.length ∧ ∀ j, j < i → losses.getD i 0 < losses.getD j 0) ∧
    lastBestSave [9/10, 1/2, 7/10] = some 1 := by
  constructor
  · intro losses i
    rw [bestSaves, bestSavesAux_mem]
    constructor
    · rintro ⟨k, hk, hj, _, hpre⟩
      have : i = k := by omega
      subst this
      exact ⟨hk, hpre⟩
    · rintro ⟨hk, hpre⟩
      refine ⟨i, hk, by omega, ?_, hpre⟩
      intro b hb
      cases hb
  · norm_num [lastBestSave, bestSaves, bestSavesAux, ltBest]

theorem C9_witness : 1 ∈ bestSaves [9/10, 1/2, 7/10] ∧ 2 ∉ bestSaves [9/10, 1/2, 7/10] := by
  constructor
  · refine (C9_best_checkpoint.1 [9/10, 1/2, 7/10] 1).mpr ⟨by norm_num, ?_⟩
    intro j hj
    interval_cases j
    norm_num
  · intro hmem
    have h := (C9_best_checkpoint.1 [9/10, 1/2, 7/10] 2).mp hmem
    have h2 := h.2 1 (by norm_num)
    norm_num at h2

theorem processRecords_length (records : List Json) :
    (processRecords records).length =
      records.countP (fun r => (processItem r).isSome) := by
  induction records with
  | nil => rfl
  | cons r rs ih =>
    unfold processRecords at ih ⊢
    rw [List.filterMap_cons, List.countP_cons]
    cases hr : processItem r with
    | none => simp [hr, ih]
    | some v => simp [hr, ih]

/-- C6: loading a file of 12 records of which 10 process cleanly and 2 are
malformed completes (the model is a total function: no exception escapes
the per-record `try/except`), yields `length() == 10`, and skips exactly
the 2 malformed records; in general the surviving count is exactly the
count of records whose processing succeeds. -/
theorem C6_partial_failure (records : List Json)
    (hlen : records.length = 12)
    (hgood : records.countP (fun r => (processItem r).isSome) = 10) :
    (processRecords records).length = 10 ∧
    records.length - (processRecords records).length = 2 := by
  have h := processRecords_length records
  rw [h, hgood, hlen]
  exact ⟨rfl, rfl⟩

theorem C6_witness :
    c6Records.length = 12 ∧
    (processRecords c6Records).length = 10 ∧
    c6Records.length - (processRecords c6Records).length = 2 := by
  have h := C6_partial_failure c6Records (by rfl) (by rfl)
  exact ⟨by rfl, h.1, h.2⟩

theorem C10_witness :
    dsGetItem (fun _ => ⟨[1], [1]⟩) [((r"a").data, (r"b").data)] (-1) =
      some { input_ids := [1], attention_mask := [1], labels := [1] } ∧
    dsGetItem (fun _ => ⟨[1], [1]⟩) [((r"a").data, (r"b").data)] (-2) = none := by
  constructor
  · have h := (C10_negative_indexing (fun _ => ⟨[1], [1]⟩)
      [((r"a").data, (r"b").data)] (-1) (by decide)).1 (by decide) (by decide)
    rw [h]
    rfl
  · exact (C10_negative_indexing (fun _ => ⟨[1], [1]⟩)
      [((r"a").data, (r"b").data)] (-2) (by decide)).2 (by decide)

/-- C3 amendment: the dataset's `input_text` equals `format_input` of the
same fields followed by a final `strip`; the two builders use the same
markers, order and single-space separation, but `format_input` itself does
not strip, so the raw strings are not identical in general. -/
theorem C3_input_construction (fd ft tt : Txt) (dom : Option Txt) :
    (processItem (mkItem fd ft tt dom none none none none none)).map Prod.fst =
      some (datasetInputText fd ft tt dom) ∧
    datasetInputText fd ft tt dom = pyStrip (format_input fd ft tt dom) := by
  constructor
  · cases dom with
    | none => rfl
    | some d =>
      cases hd : d.isEmpty with
      | true =>
        simp [processItem, mkItem, optSeg, ofKVs, jLookup, kFD, kFT, kTT, kDOM,
          kSC, kST, kEX, kTD, kRQ, truthy, hd, pyStr, datasetInputText, inputRawT]
      | false =>
        simp [processItem, mkItem, optSeg, ofKVs, jLookup, kFD, kFT, kTT, kDOM,
          kSC, kST, kEX, kTD, kRQ, truthy, hd, pyStr, datasetInputText, inputRawT]
  · rfl

theorem C3_counterexample :
    format_input ((r"f").data) ((r"t").data) ((r"u").data) none ≠
      datasetInputText ((r"f").data) ((r"t").data) ((r"u").data) none := by
  decide

theorem C3_witness :
    (processItem (mkItem ((r"f").data) ((r"t").data) ((r"u").data) none
        none none none none none)).map Prod.fst =
      some (pyStrip (format_input ((r"f").data) ((r"t").data) ((r"u").data) none)) := by
  have h := C3_input_construction ((r"f").data) ((r"t").data) ((r"u").data) none
  rw [h.1, h.2]

theorem intercalate_append_last (m : Txt) :
    ∀ (l : List Txt), l ≠ [] → ∀ p,
      List.intercalate m (l ++ [p]) = List.intercalate m l ++ m ++ p := by
  intro l
  induction l with
  | nil => intro h; exact absurd rfl h
  | cons a x ih =>
    intro _ p
    cases x with
    | nil =>
      rw [intercalate_single]
      show List.intercalate m [a, p] = a ++ m ++ p
      rw [intercalate_cons m a [p] (by simp), intercalate_single]
    | cons b x' =>
      have hx : (b :: x') ++ [p] ≠ [] := by simp
      show List.intercalate m (a :: ((b :: x') ++ [p])) = _
      rw [intercalate_cons m a ((b :: x') ++ [p]) hx, ih (by simp) p,
        intercalate_cons m a (b :: x') (by simp)]
      simp [List.append_assoc]

/-- C5 amendment: when a marker occurs in the raw text, `format_output`'s
section loop assigns the field from the text after the LAST occurrence of
the marker (every later part of the split overwrites the entry), up to the
next `'['` (or end of string); a marker absent from the text yields no
entry, so the field falls back to its empty default, never an error. -/
theorem C5_last_occurrence :
    (∀ mark t, mark ∈ targetMarkers → containsSub mark t = true →
      ∃ u v, t = u ++ mark ++ v ∧ containsSub mark v = false ∧
        sectionFor mark t = some (pyStrip (takeUpToBracket v))) ∧
    (∀ mark t, containsSub mark t = false → sectionFor mark t = none) := by
  constructor
  · intro mark t hmark hc
    have hm : mark ≠ [] := by
      have : ∀ m ∈ targetMarkers, m ≠ [] := by decide
      exact this mark hmark
    rcases Option.isSome_iff_exists.mp hc with ⟨i, hi⟩
    have hsplit := splitOnSub_of_some mark t i hm hi
    set inner := splitOnSub mark (t.drop (i + mark.length)) with hinner
    have hinner_ne : inner ≠ [] := splitOnSub_ne_nil mark _ hm
    have hlast : ∃ p, inner.getLast? = some p := by
      cases hl : inner.getLast? with
      | none => exact absurd (List.getLast?_eq_none_iff.mp hl) hinner_ne
      | some p => exact ⟨p, rfl⟩
    rcases hlast with ⟨p, hp⟩
    have hpmem : p ∈ inner := by
      rcases List.mem_getLast?_eq_getLast (by rw [hp]; rfl) with ⟨hne2, hpe⟩
      rw [hpe]
      exact List.getLast_mem hne2
    have hparts : p ∈ splitOnSub mark t := by
      rw [hsplit]
      exact List.mem_cons_of_mem _ hpmem
    have hnotocc : ¬ occursIn mark p := splitOnSub_parts mark t hm p hparts
    have hcv : containsSub mark p = false := (containsSub_false_iff mark p).mpr hnotocc
    have hdecomp : t = List.intercalate mark (t.take i :: inner.dropLast) ++ mark ++ p := by
      have hjoin := splitOnSub_join mark t hm
      rw [hsplit] at hjoin
      have hdl : inner.dropLast ++ [p] = inner := by
        have hgl : inner.getLast hinner_ne = p := by
          rw [List.getLast?_eq_getLast_of_ne_nil hinner_ne] at hp
          exact Option.some_inj.mp hp
        rw [← hgl]
        exact List.dropLast_append_getLast hinner_ne
      have hshape : t.take i :: inner = (t.take i :: inner.dropLast) ++ [p] := by
        rw [List.cons_append, hdl]
      rw [hshape] at hjoin
      rw [intercalate_append_last mark (t.take i :: inner.dropLast) (by simp) p] at hjoin
      exact hjoin.symm
    refine ⟨List.intercalate mark (t.take i :: inner.dropLast), p, hdecomp, hcv, ?_⟩
    unfold sectionFor
    rw [hc]
    simp only [if_true]
    rw [hsplit]
    show assignParts inner none = _
    rw [assignParts_last inner none hinner_ne, hp]
    rfl
  · intro mark t hc
    unfold sectionFor
    rw [hc]
    rfl

theorem C5_counterexample :
    (format_output (mSTEPS ++ (r" a ").data ++ mSTEPS ++ (r" b").data)).map
        GenResult.steps = some [[('b' : Char)]] ∧
    [[('b' : Char)]] ≠ [[('a' : Char)]] := by
  constructor
  · rfl
  · decide

theorem C5_witness :
    ∃ u v, mSTEPS ++ (r" a ").data ++ mSTEPS ++ (r" b").data = u ++ mSTEPS ++ v ∧
      containsSub mSTEPS v = false ∧
      sectionFor mSTEPS (mSTEPS ++ (r" a ").data ++ mSTEPS ++ (r" b").data) =
        some (pyStrip (takeUpToBracket v)) := by
  exact C5_last_occurrence.1 mSTEPS (mSTEPS ++ (r" a ").data ++ mSTEPS ++ (r" b").data)
    (by decide) (by decide)

/-- C2 amendment: the whole decode fails (Python returns the bare empty
dict `{}`, modelled as `none`) exactly when the `[DATA]` section's raw
value does not parse as JSON; no partial result with the other extracted
fields survives. -/
theorem C2_data_parse_failure (t : Txt) :
    format_output t = none ↔ jloads (dataSectionRaw t) = none := by
  unfold format_output
  cases h : jloads (dataSectionRaw t) with
  | none => simp [h]
  | some j => simp [h]

theorem C2_counterexample :
    format_output ( mSCENARIO ++ (r" Login ").data ++ mDATA ++ (r" oops").data) = none := by
  rfl

theorem C2_witness :
    format_output ( mSCENARIO ++ (r" ok ").data ++ mDATA ++ (r" nope").data) = none :=
  (C2_data_parse_failure ( mSCENARIO ++ (r" ok ").data ++ mDATA ++ (r" nope").data)).mpr
    (by rfl)

theorem asStrs_toJL (l : List Txt) :
    asStrs (toJL (l.map Json.jstr)) = some l := by
  induction l with
  | nil => rfl
  | cons s l ih => simp [toJL, asStrs, ih]

theorem jLookup_cons_orElse (k' : Txt) (v : Json) (rest : JsonKVs) (k : Txt) :
    jLookup (JsonKVs.cons k' v rest) k =
      (jLookup rest k <|> if k' = k then some v else none) := by
  cases h : jLookup rest k <;> simp [jLookup, h]

theorem jLookup_ofKVs_append (a b : List (Txt × Json)) (k : Txt) :
    jLookup (ofKVs (a ++ b)) k =
      (jLookup (ofKVs b) k <|> jLookup (ofKVs a) k) := by
  induction a with
  | nil => simp [ofKVs, jLookup]
  | cons kv a' ih =>
    have hr : jLookup (ofKVs (kv :: a')) k =
        (jLookup (ofKVs a') k <|> if kv.1 = k then some kv.2 else none) := by
      exact jLookup_cons_orElse kv.1 kv.2 (ofKVs a') k
    show jLookup (JsonKVs.cons kv.1 kv.2 (ofKVs (a' ++ b))) k = _
    rw [jLookup_cons_orElse, ih, hr]
    cases jLookup (ofKVs b) k <;> cases jLookup (ofKVs a') k <;> simp

theorem jLookup_optSeg (k k' : Txt) (o : Option Json) :
    jLookup (ofKVs (optSeg k o)) k' = if k = k' then o else none := by
  cases o with
  | none => simp [optSeg, ofKVs, jLookup]
  | some x =>
    by_cases h : k = k' <;> simp [optSeg, ofKVs, jLookup, h]

theorem jLookup_req3 (fd ft tt : Txt) (k : Txt) :
    jLookup (ofKVs [(kFD, Json.jstr fd), (kFT, Json.jstr ft), (kTT, Json.jstr tt)]) k =
      if kTT = k then some (Json.jstr tt)
      else if kFT = k then some (Json.jstr ft)
      else if kFD = k then some (Json.jstr fd) else none := by
  by_cases h1 : kTT = k <;> by_cases h2 : kFT = k <;> by_cases h3 : kFD = k <;>
    simp [ofKVs, jLookup, h1, h2, h3]

theorem jLookup_nil (k : Txt) : jLookup JsonKVs.nil k = none := rfl

theorem mkItem_lookups (fd ft tt : Txt) (dom sc : Option Txt)
    (st ex : Option (List Txt)) (td : Option Json) (rq : Option (List Txt)) :
    jLookup (ofKVs (mkItemKVs fd ft tt dom sc st ex td rq)) kFD = some (Json.jstr fd) ∧
    jLookup (ofKVs (mkItemKVs fd ft tt dom sc st ex td rq)) kFT = some (Json.jstr ft) ∧
    jLookup (ofKVs (mkItemKVs fd ft tt dom sc st ex td rq)) kTT = some (Json.jstr tt) ∧
    jLookup (ofKVs (mkItemKVs fd ft tt dom sc st ex td rq)) kDOM = dom.map Json.jstr ∧
    jLookup (ofKVs (mkItemKVs fd ft tt dom sc st ex td rq)) kSC = sc.map Json.jstr ∧
    jLookup (ofKVs (mkItemKVs fd ft tt dom sc st ex td rq)) kST = st.map strArr ∧
    jLookup (ofKVs (mkItemKVs fd ft tt dom sc st ex td rq)) kEX = ex.map strArr ∧
    jLookup (ofKVs (mkItemKVs fd ft tt dom sc st ex td rq)) kTD = td ∧
    jLookup (ofKVs (mkItemKVs fd ft tt dom sc st ex td rq)) kRQ = rq.map strArr := by
  refine ⟨?_, ?_, ?_, ?_, ?_, ?_, ?_, ?_, ?_⟩ <;>
    simp [mkItemKVs, jLookup_ofKVs_append, jLookup_optSeg, jLookup_cons_orElse,
      ofKVs, jLookup_nil, kFD, kFT, kTT, kDOM, kSC, kST, kEX, kTD, kRQ]

set_option maxHeartbeats 4000000 in
theorem processItem_mkItem (fd ft tt : Txt) (dom sc : Option Txt)
    (st ex : Option (List Txt)) (td : Option Json) (rq : Option (List Txt)) :
    processItem (mkItem fd ft tt dom sc st ex td rq) =
      some (pyStrip (inputRawT fd ft tt dom),
            pyStrip (targetRawT sc (st.map joinSp) (ex.map joinSp)
              (td.map jdumps) (rq.map joinSp))) := by
  obtain ⟨h1, h2, h3, h4, h5, h6, h7, h8, h9⟩ := mkItem_lookups fd ft tt dom sc st ex td rq
  show processItem (Json.obj (ofKVs (mkItemKVs fd ft tt dom sc st ex td rq))) = _
  cases sc <;> cases st <;> cases ex <;> cases td <;> cases rq <;> cases dom <;>
    simp [processItem, h1, h2, h3, h4, h5, h6, h7, h8, h9, pyJoinVal, strArr,
      asStrs_toJL, targetRawT, secPart, secPartLast, inputRawT, joinSp,
      truthy, pyStr]

theorem not_occursIn_of_findSub_none {m t : Txt} (h : findSub m t = none) :
    ¬ occursIn m t := by
  rintro ⟨u, v, rfl⟩
  exact findSub_none m _ h u.length ⟨v, by rw [List.append_assoc, List.drop_left]⟩

theorem marker_facts :
    ∀ m ∈ targetMarkers, m ≠ [] ∧ headNotWs m = true ∧ headNotWs m.reverse = true := by
  decide

theorem safePre_marker_of_ne {m mark : Txt} (hm : m ∈ targetMarkers)
    (hmk : mark ∈ targetMarkers) (hne : m ≠ mark) : SafePre m mark := by
  simp only [targetMarkers, List.mem_cons, List.not_mem_nil, or_false] at hm hmk
  rcases hm with rfl | rfl | rfl | rfl | rfl <;>
    rcases hmk with rfl | rfl | rfl | rfl | rfl <;>
      first
      | exact absurd rfl hne
      | exact safePre_otherMarker _ _ rfl rfl (by decide) (by decide) (by decide) (by decide)

theorem safePre_noBrk_marker {m x : Txt} (hm : m ∈ targetMarkers) (hx : '[' ∉ x) :
    SafePre m x := by
  simp only [targetMarkers, List.mem_cons, List.not_mem_nil, or_false] at hm
  rcases hm with rfl | rfl | rfl | rfl | rfl <;> exact safePre_noBrk _ rfl hx

theorem safePre_secPart {m mark : Txt} (hm : m ∈ targetMarkers)
    (hmk : mark ∈ targetMarkers) (hne : m ≠ mark) {o : Option Txt}
    (ho : ∀ v, o = some v → '[' ∉ v) : SafePre m (secPart mark o) := by
  cases o with
  | none => exact safePre_nil m
  | some v =>
    have hv := ho v rfl
    have h2 : '[' ∉ spTxt ++ v ++ spTxt := by
      simp [spTxt, List.mem_append, hv]
    show SafePre m (mark ++ spTxt ++ v ++ spTxt)
    have hre : mark ++ spTxt ++ v ++ spTxt = mark ++ (spTxt ++ v ++ spTxt) := by
      simp [List.append_assoc]
    rw [hre]
    exact safePre_append (safePre_marker_of_ne hm hmk hne) (safePre_noBrk_marker hm h2)

theorem safePre_secPartLast {m mark : Txt} (hm : m ∈ targetMarkers)
    (hmk : mark ∈ targetMarkers) (hne : m ≠ mark) {o : Option Txt}
    (ho : ∀ v, o = some v → '[' ∉ v) : SafePre m (secPartLast mark o) := by
  cases o with
  | none => exact safePre_nil m
  | some v =>
    have hv := ho v rfl
    have h2 : '[' ∉ spTxt ++ v := by
      simp [spTxt, List.mem_append, hv]
    show SafePre m (mark ++ spTxt ++ v)
    have hre : mark ++ spTxt ++ v = mark ++ (spTxt ++ v) := by
      simp [List.append_assoc]
    rw [hre]
    exact safePre_append (safePre_marker_of_ne hm hmk hne) (safePre_noBrk_marker hm h2)

theorem safePre_secPart_cond {m mark : Txt} (hm : m ∈ targetMarkers)
    (hmk : mark ∈ targetMarkers) {o : Option Txt}
    (ho : ∀ v, o = some v → '[' ∉ v) (hcase : m = mark → o = none) :
    SafePre m (secPart mark o) := by
  by_cases he : m = mark
  · rw [hcase he]
    exact safePre_nil m
  · exact safePre_secPart hm hmk he ho

theorem safePre_secPartLast_cond {m mark : Txt} (hm : m ∈ targetMarkers)
    (hmk : mark ∈ targetMarkers) {o : Option Txt}
    (ho : ∀ v, o = some v → '[' ∉ v) (hcase : m = mark → o = none) :
    SafePre m (secPartLast mark o) := by
  by_cases he : m = mark
  · rw [hcase he]
    exact safePre_nil m
  · exact safePre_secPartLast hm hmk he ho

theorem safePre_targetRawT {m : Txt} (hm : m ∈ targetMarkers)
    {o1 o2 o3 o4 o5 : Option Txt}
    (g1 : ∀ v, o1 = some v → '[' ∉ v) (g2 : ∀ v, o2 = some v → '[' ∉ v)
    (g3 : ∀ v, o3 = some v → '[' ∉ v) (g4 : ∀ v, o4 = some v → '[' ∉ v)
    (g5 : ∀ v, o5 = some v → '[' ∉ v)
    (c1 : m = mSCENARIO → o1 = none) (c2 : m = mSTEPS → o2 = none)
    (c3 : m = mEXPECTED → o3 = none) (c4 : m = mDATA → o4 = none)
    (c5 : m = mREQUIREMENTS → o5 = none) :
    SafePre m (targetRawT o1 o2 o3 o4 o5) := by
  show SafePre m (secPart mSCENARIO o1 ++ secPart mSTEPS o2 ++ secPart mEXPECTED o3 ++
    secPart mDATA o4 ++ secPartLast mREQUIREMENTS o5)
  exact safePre_append (safePre_append (safePre_append (safePre_append
    (safePre_secPart_cond hm (by decide) g1 c1)
    (safePre_secPart_cond hm (by decide) g2 c2))
    (safePre_secPart_cond hm (by decide) g3 c3))
    (safePre_secPart_cond hm (by decide) g4 c4))
    (safePre_secPartLast_cond hm (by decide) g5 c5)

theorem containsSub_pyStrip_of_occ {m T : Txt} (hm : m ∈ targetMarkers)
    (hocc : occursIn m T) : containsSub m (pyStrip T) = true := by
  obtain ⟨hne, hh, hr⟩ := marker_facts m hm
  exact (containsSub_iff _ _).mpr (occursIn_pyStrip hne hh hr hocc)

theorem containsSub_pyStrip_eq_false {m T : Txt} (hm : m ∈ targetMarkers)
    (hT : SafePre m T) : containsSub m (pyStrip T) = false := by
  obtain ⟨hne, _, _⟩ := marker_facts m hm
  refine (containsSub_false_iff _ _).mpr ?_
  intro hocc
  exact not_occursIn_of_findSub_none (findSub_of_safePre hne hT)
    (occursIn_of_pyStrip hocc)

/-- C4 amendment: the encoder appends a target marker section iff the
corresponding key is PRESENT in the record, regardless of emptiness: a
present-but-empty field still produces its marker (so the encoder can emit
an empty marker section), and an absent field produces none.  Stated for
records with string-typed fields whose rendered values contain no `'['`. -/
theorem C4_marker_iff_present (fd ft tt : Txt) (dom sc : Option Txt)
    (st ex : Option (List Txt)) (td : Option Json) (rq : Option (List Txt))
    (hsc : ∀ v, sc = some v → '[' ∉ v)
    (hst : ∀ l, st = some l → '[' ∉ joinSp l)
    (hex : ∀ l, ex = some l → '[' ∉ joinSp l)
    (htd : ∀ j, td = some j → '[' ∉ jdumps j)
    (hrq : ∀ l, rq = some l → '[' ∉ joinSp l) :
    ∀ tgt, (processItem (mkItem fd ft tt dom sc st ex td rq)).map Prod.snd = some tgt →
      ((containsSub mSCENARIO tgt = true ↔ sc.isSome = true) ∧
       (containsSub mSTEPS tgt = true ↔ st.isSome = true) ∧
       (containsSub mEXPECTED tgt = true ↔ ex.isSome = true) ∧
       (containsSub mDATA tgt = true ↔ td.isSome = true) ∧
       (containsSub mREQUIREMENTS tgt = true ↔ rq.isSome = true)) := by
  intro tgt h
  rw [processItem_mkItem] at h
  simp only [Option.map_some'] at h
  have htgt : tgt = pyStrip (targetRawT sc (st.map joinSp) (ex.map joinSp)
      (td.map jdumps) (rq.map joinSp)) := (Option.some_inj.mp h).symm
  subst htgt
  have g2 : ∀ v, st.map joinSp = some v → '[' ∉ v := by
    intro v hv
    rcases Option.map_eq_some.mp hv with ⟨l, hl, rfl⟩
    exact hst l hl
  have g3 : ∀ v, ex.map joinSp = some v → '[' ∉ v := by
    intro v hv
    rcases Option.map_eq_some.mp hv with ⟨l, hl, rfl⟩
    exact hex l hl
  have g4 : ∀ v, td.map jdumps = some v → '[' ∉ v := by
    intro v hv
    rcases Option.map_eq_some.mp hv with ⟨j, hj, rfl⟩
    exact htd j hj
  have g5 : ∀ v, rq.map joinSp = some v → '[' ∉ v := by
    intro v hv
    rcases Option.map_eq_some.mp hv with ⟨l, hl, rfl⟩
    exact hrq l hl
  refine ⟨?_, ?_, ?_, ?_, ?_⟩
  · cases sc with
    | some v =>
      simp only [Option.isSome_some, iff_true]
      apply containsSub_pyStrip_of_occ (by decide)
      refine ⟨[], spTxt ++ v ++ spTxt ++ (secPart mSTEPS (st.map joinSp) ++
        (secPart mEXPECTED (ex.map joinSp) ++ (secPart mDATA (td.map jdumps) ++
          secPartLast mREQUIREMENTS (rq.map joinSp)))), ?_⟩
      simp [targetRawT, secPart, List.append_assoc]
    | none =>
      have hfalse := @containsSub_pyStrip_eq_false mSCENARIO _ (by decide)
        (safePre_targetRawT (by decide) hsc g2 g3 g4 g5
          (fun _ => rfl) (fun hx => absurd hx (by decide))
          (fun hx => absurd hx (by decide)) (fun hx => absurd hx (by decide))
          (fun hx => absurd hx (by decide)))
      simp only [Option.map_none'] at hfalse
      simp [hfalse]
  · cases st with
    | some l =>
      simp only [Option.map_some', Option.isSome_some, iff_true]
      apply containsSub_pyStrip_of_occ (by decide)
      refine ⟨secPart mSCENARIO sc, spTxt ++ joinSp l ++ spTxt ++
        (secPart mEXPECTED (ex.map joinSp) ++ (secPart mDATA (td.map jdumps) ++
          secPartLast mREQUIREMENTS (rq.map joinSp))), ?_⟩
      simp [targetRawT, secPart, List.append_assoc]
    | none =>
      have hfalse := @containsSub_pyStrip_eq_false mSTEPS _ (by decide)
        (safePre_targetRawT (by decide) hsc g2 g3 g4 g5
          (fun hx => absurd hx (by decide)) (fun _ => rfl)
          (fun hx => absurd hx (by decide)) (fun hx => absurd hx (by decide))
          (fun hx => absurd hx (by decide)))
      simp only [Option.map_none'] at hfalse
      simp [hfalse]
  · cases ex with
    | some l =>
      simp only [Option.map_some', Option.isSome_some, iff_true]
      apply containsSub_pyStrip_of_occ (by decide)
      refine ⟨secPart mSCENARIO sc ++ secPart mSTEPS (st.map joinSp),
        spTxt ++ joinSp l ++ spTxt ++ (secPart mDATA (td.map jdumps) ++
          secPartLast mREQUIREMENTS (rq.map joinSp)), ?_⟩
      simp [targetRawT, secPart, List.append_assoc]
    | none =>
      have hfalse := @containsSub_pyStrip_eq_false mEXPECTED _ (by decide)
        (safePre_targetRawT (by decide) hsc g2 g3 g4 g5
          (fun hx => absurd hx (by decide)) (fun hx => absurd hx (by decide))
          (fun _ => rfl) (fun hx => absurd hx (by decide))
          (fun hx => absurd hx (by decide)))
      simp only [Option.map_none'] at hfalse
      simp [hfalse]
  · cases td with
    | some j =>
      simp only [Option.map_some', Option.isSome_some, iff_true]
      apply containsSub_pyStrip_of_occ (by decide)
      refine ⟨secPart mSCENARIO sc ++ secPart mSTEPS (st.map joinSp) ++
        secPart mEXPECTED (ex.map joinSp),
        spTxt ++ jdumps j ++ spTxt ++ secPartLast mREQUIREMENTS (rq.map joinSp), ?_⟩
      simp [targetRawT, secPart, List.append_assoc]
    | none =>
      have hfalse := @containsSub_pyStrip_eq_false mDATA _ (by decide)
        (safePre_targetRawT (by decide) hsc g2 g3 g4 g5
          (fun hx => absurd hx (by decide)) (fun hx => absurd hx (by decide))
          (fun hx => absurd hx (by decide)) (fun _ => rfl)
          (fun hx => absurd hx (by decide)))
      simp only [Option.map_none'] at hfalse
      simp [hfalse]
  · cases rq with
    | some l =>
      simp only [Option.map_some', Option.isSome_some, iff_true]
      apply containsSub_pyStrip_of_occ (by decide)
      refine ⟨secPart mSCENARIO sc ++ secPart mSTEPS (st.map joinSp) ++
        secPart mEXPECTED (ex.map joinSp) ++ secPart mDATA (td.map jdumps),
        spTxt ++ joinSp l, ?_⟩
      simp [targetRawT, secPart, secPartLast, List.append_assoc]
    | none =>
      have hfalse := @containsSub_pyStrip_eq_false mREQUIREMENTS _ (by decide)
        (safePre_targetRawT (by decide) hsc g2 g3 g4 g5
          (fun hx => absurd hx (by decide)) (fun hx => absurd hx (by decide))
          (fun hx => absurd hx (by decide)) (fun hx => absurd hx (by decide))
          (fun _ => rfl))
      simp only [Option.map_none'] at hfalse
      simp [hfalse]

theorem contains_false_iff (t : Txt) (c : Char) :
    t.contains c = false ↔ c ∉ t := by
  constructor
  · intro h hmem
    unfold List.contains at h
    rw [List.elem_eq_true_of_mem hmem] at h
    exact Bool.true_eq_false.mp h
  · intro h
    cases hc : t.contains c with
    | false => rfl
    | true => exact absurd (List.mem_of_elem_eq_true hc) h

theorem wfVal_spec {t : Txt} (h : wfVal t = true) :
    '[' ∉ t ∧ nlC ∉ t ∧ headNotWs t = true ∧ headNotWs t.reverse = true := by
  have h' := h
  unfold wfVal at h'
  simp only [Bool.and_eq_true, Bool.not_eq_true'] at h'
  exact ⟨(contains_false_iff t '[').mp h'.1.1.1, (contains_false_iff t nlC).mp h'.1.1.2,
    h'.1.2, h'.2⟩

theorem headNotWs_append {a : Txt} (b : Txt) (ha : a ≠ []) :
    headNotWs (a ++ b) = headNotWs a := by
  cases a with
  | nil => exact absurd rfl ha
  | cons c a' => rfl

theorem notMem_joinSp {c : Char} (hc : c ≠ ' ') :
    ∀ (l : List Txt), (∀ s ∈ l, c ∉ s) → c ∉ joinSp l := by
  intro l
  induction l with
  | nil =>
    intro _
    simp [joinSp, List.intercalate]
  | cons a rest ih =>
    intro h
    cases rest with
    | nil =>
      have : joinSp [a] = a := intercalate_single spTxt a
      rw [this]
      exact h a (by simp)
    | cons b rest' =>
      have : joinSp (a :: b :: rest') = a ++ spTxt ++ joinSp (b :: rest') := by
        unfold joinSp
        exact intercalate_cons spTxt a (b :: rest') (by simp)
      rw [this]
      intro hmem
      simp only [List.mem_append] at hmem
      rcases hmem with (hmem | hmem) | hmem
      · exact h a (by simp) hmem
      · simp [spTxt] at hmem
        exact hc hmem
      · exact ih (fun s hs => h s (by simp [hs])) hmem

theorem joinSp_ne_nil {l : List Txt} (hl : l ≠ []) (h : ∀ s ∈ l, s ≠ []) :
    joinSp l ≠ [] := by
  cases l with
  | nil => exact absurd rfl hl
  | cons a rest =>
    cases rest with
    | nil =>
      have he : joinSp [a] = a := intercalate_single spTxt a
      rw [he]
      exact h a (by simp)
    | cons b rest' =>
      have he : joinSp (a :: b :: rest') = a ++ spTxt ++ joinSp (b :: rest') := by
        unfold joinSp
        exact intercalate_cons spTxt a (b :: rest') (by simp)
      rw [he]
      have ha := h a (by simp)
      cases a with
      | nil => exact absurd rfl ha
      | cons c a' => simp

theorem joinSp_headNotWs {l : List Txt} (hl : l ≠ [])
    (h : ∀ s ∈ l, s ≠ [] ∧ headNotWs s = true) : headNotWs (joinSp l) = true := by
  cases l with
  | nil => exact absurd rfl hl
  | cons a rest =>
    cases rest with
    | nil =>
      have he : joinSp [a] = a := intercalate_single spTxt a
      rw [he]
      exact (h a (by simp)).2
    | cons b rest' =>
      have he : joinSp (a :: b :: rest') = a ++ (spTxt ++ joinSp (b :: rest')) := by
        unfold joinSp
        rw [intercalate_cons spTxt a (b :: rest') (by simp)]
        rw [List.append_assoc]
      rw [he, headNotWs_append _ (h a (by simp)).1]
      exact (h a (by simp)).2

theorem joinSp_lastNotWs {l : List Txt} (hl : l ≠ [])
    (h : ∀ s ∈ l, s ≠ [] ∧ headNotWs s.reverse = true) :
    headNotWs (joinSp l).reverse = true := by
  induction l with
  | nil => exact absurd rfl hl
  | cons a rest ih =>
    cases rest with
    | nil =>
      have he : joinSp [a] = a := intercalate_single spTxt a
      rw [he]
      exact (h a (by simp)).2
    | cons b rest' =>
      have he : joinSp (a :: b :: rest') = a ++ spTxt ++ joinSp (b :: rest') := by
        unfold joinSp
        exact intercalate_cons spTxt a (b :: rest') (by simp)
      have hjne : joinSp (b :: rest') ≠ [] :=
        joinSp_ne_nil (by simp) (fun s hs => (h s (by simp [hs])).1)
      have hrevne : (joinSp (b :: rest')).reverse ≠ [] := by
        intro hc
        exact hjne (by simpa using congrArg List.reverse hc)
      have hr2 : (a ++ spTxt ++ joinSp (b :: rest')).reverse =
          (joinSp (b :: rest')).reverse ++ (spTxt.reverse ++ a.reverse) := by
        simp [List.reverse_append, List.append_assoc]
      rw [he, hr2, headNotWs_append _ hrevne]
      exact ih (by simp) (fun s hs => h s (by simp [hs]))

theorem replaceSub_noop {pat repl t : Txt} (h : containsSub pat t = false) :
    replaceSub pat repl t = t := by
  have hf : findSub pat t = none := by
    unfold containsSub at h
    cases hx : findSub pat t with
    | none => rfl
    | some i => rw [hx] at h; simp at h
  unfold replaceSub
  rw [splitOnSub_of_none pat t hf, intercalate_single]

theorem findSub_singleton_none {c : Char} {t : Txt} (h : c ∉ t) :
    findSub [c] t = none := by
  induction t with
  | nil => rfl
  | cons d t' ih =>
    simp only [List.mem_cons, not_or] at h
    have hpre : ([c]).isPrefixOf (d :: t') = false := by
      cases hp : ([c]).isPrefixOf (d :: t') with
      | false => rfl
      | true =>
        rcases (isPrefixOf_iff _ _).mp hp with ⟨r, hr⟩
        simp only [List.singleton_append, List.cons.injEq] at hr
        exact absurd hr.1.symm h.1
    rw [findSub, hpre]
    simp [ih h.2]

theorem takeUpToBracket_markerR {B0 mk : Txt} (R : Txt) (hB : '[' ∉ B0)
    (mkt : Txt) (hmk : mk = '[' :: mkt) :
    takeUpToBracket (B0 ++ (mk ++ R)) = B0 := by
  subst hmk
  have hsh : B0 ++ (('[' :: mkt) ++ R) = B0 ++ '[' :: (mkt ++ R) := by simp
  rw [hsh, takeUpToBracket_append hB]

theorem splitLinesClean_single {B : Txt} (hnl : nlC ∉ B) (hne : B ≠ [])
    (hh : headNotWs B = true) (hr : headNotWs B.reverse = true) :
    splitLinesClean B = [B] := by
  unfold splitLinesClean
  rw [splitOnSub_of_none [nlC] B (findSub_singleton_none hnl)]
  simp [pyStrip_eq_self hh hr, hne]

theorem sectionFor_enc_SCENARIO (A B C D E : Txt) (hA : '[' ∉ A) (hB : '[' ∉ B)
    (hC : '[' ∉ C) (hD : '[' ∉ D) (hE : '[' ∉ E) :
    sectionFor mSCENARIO (targetRawT (some A) (some B) (some C) (some D) (some E)) =
      some (pyStrip (spTxt ++ A ++ spTxt)) := by
  have hB0 : '[' ∉ spTxt ++ A ++ spTxt := by simp [spTxt, hA]
  have hW : findSub mSCENARIO (spTxt ++ A ++ spTxt ++ (mSTEPS ++ (spTxt ++ (B ++ (spTxt ++
      (mEXPECTED ++ (spTxt ++ (C ++ (spTxt ++ (mDATA ++ (spTxt ++ (D ++ (spTxt ++
      (mREQUIREMENTS ++ (spTxt ++ E))))))))))))))) = none := by
    apply findSub_of_safePre (by decide)
    repeat' apply safePre_append
    all_goals
      first
      | exact safePre_noBrk_marker (by decide) (by decide)
      | exact safePre_noBrk_marker (by decide) hA
      | exact safePre_noBrk_marker (by decide) hB
      | exact safePre_noBrk_marker (by decide) hC
      | exact safePre_noBrk_marker (by decide) hD
      | exact safePre_noBrk_marker (by decide) hE
      | exact safePre_marker_of_ne (by decide) (by decide) (by decide)
  have hEq : targetRawT (some A) (some B) (some C) (some D) (some E) =
      [] ++ mSCENARIO ++ (spTxt ++ A ++ spTxt ++ (mSTEPS ++ (spTxt ++ (B ++ (spTxt ++
      (mEXPECTED ++ (spTxt ++ (C ++ (spTxt ++ (mDATA ++ (spTxt ++ (D ++ (spTxt ++
      (mREQUIREMENTS ++ (spTxt ++ E))))))))))))))) := by
    simp [targetRawT, secPart, secPartLast, List.append_assoc]
  rw [hEq, sectionFor_present (by decide) (safePre_nil _) hW,
    takeUpToBracket_markerR _ hB0 ((r"STEPS]").data)
      (show mSTEPS = '[' :: (r"STEPS]").data from rfl)]

theorem sectionFor_enc_STEPS (A B C D E : Txt) (hA : '[' ∉ A) (hB : '[' ∉ B)
    (hC : '[' ∉ C) (hD : '[' ∉ D) (hE : '[' ∉ E) :
    sectionFor mSTEPS (targetRawT (some A) (some B) (some C) (some D) (some E)) =
      some (pyStrip (spTxt ++ B ++ spTxt)) := by
  have hB0 : '[' ∉ spTxt ++ B ++ spTxt := by simp [spTxt, hB]
  have hX : SafePre mSTEPS ( mSCENARIO ++ (spTxt ++ (A ++ spTxt))) := by
    repeat' apply safePre_append
    all_goals
      first
      | exact safePre_noBrk_marker (by decide) (by decide)
      | exact safePre_noBrk_marker (by decide) hA
      | exact safePre_marker_of_ne (by decide) (by decide) (by decide)
  have hW : findSub mSTEPS (spTxt ++ B ++ spTxt ++ (mEXPECTED ++ (spTxt ++ (C ++ (spTxt ++
      (mDATA ++ (spTxt ++ (D ++ (spTxt ++ (mREQUIREMENTS ++ (spTxt ++ E))))))))))) = none := by
    apply findSub_of_safePre (by decide)
    repeat' apply safePre_append
    all_goals
      first
      | exact safePre_noBrk_marker (by decide) (by decide)
      | exact safePre_noBrk_marker (by decide) hB
      | exact safePre_noBrk_marker (by decide) hC
      | exact safePre_noBrk_marker (by decide) hD
      | exact safePre_noBrk_marker (by decide) hE
      | exact safePre_marker_of_ne (by decide) (by decide) (by decide)
  have hEq : targetRawT (some A) (some B) (some C) (some D) (some E) =
      ( mSCENARIO ++ (spTxt ++ (A ++ spTxt))) ++ mSTEPS ++ (spTxt ++ B ++ spTxt ++
      (mEXPECTED ++ (spTxt ++ (C ++ (spTxt ++ (mDATA ++ (spTxt ++ (D ++ (spTxt ++
      (mREQUIREMENTS ++ (spTxt ++ E))))))))))) := by
    simp [targetRawT, secPart, secPartLast, List.append_assoc]
  rw [hEq, sectionFor_present (by decide) hX hW,
    takeUpToBracket_markerR _ hB0 ((r"EXPECTED]").data)
      (show mEXPECTED = '[' :: (r"EXPECTED]").data from rfl)]

theorem sectionFor_enc_EXPECTED (A B C D E : Txt) (hA : '[' ∉ A) (hB : '[' ∉ B)
    (hC : '[' ∉ C) (hD : '[' ∉ D) (hE : '[' ∉ E) :
    sectionFor mEXPECTED (targetRawT (some A) (some B) (some C) (some D) (some E)) =
      some (pyStrip (spTxt ++ C ++ spTxt)) := by
  have hB0 : '[' ∉ spTxt ++ C ++ spTxt := by simp [spTxt, hC]
  have hX : SafePre mEXPECTED ( mSCENARIO ++ (spTxt ++ (A ++ (spTxt ++
      (mSTEPS ++ (spTxt ++ (B ++ spTxt))))))) := by
    repeat' apply safePre_append
    all_goals
      first
      | exact safePre_noBrk_marker (by decide) (by decide)
      | exact safePre_noBrk_marker (by decide) hA
      | exact safePre_noBrk_marker (by decide) hB
      | exact safePre_marker_of_ne (by decide) (by decide) (by decide)
  have hW : findSub mEXPECTED (spTxt ++ C ++ spTxt ++ (mDATA ++ (spTxt ++ (D ++ (spTxt ++
      (mREQUIREMENTS ++ (spTxt ++ E))))))) = none := by
    apply findSub_of_safePre (by decide)
    repeat' apply safePre_append
    all_goals
      first
      | exact safePre_noBrk_marker (by decide) (by decide)
      | exact safePre_noBrk_marker (by decide) hC
      | exact safePre_noBrk_marker (by decide) hD
      | exact safePre_noBrk_marker (by decide) hE
      | exact safePre_marker_of_ne (by decide) (by decide) (by decide)
  have hEq : targetRawT (some A) (some B) (some C) (some D) (some E) =
      ( mSCENARIO ++ (spTxt ++ (A ++ (spTxt ++ (mSTEPS ++ (spTxt ++ (B ++ spTxt))))))) ++
      mEXPECTED ++ (spTxt ++ C ++ spTxt ++ (mDATA ++ (spTxt ++ (D ++ (spTxt ++
      (mREQUIREMENTS ++ (spTxt ++ E))))))) := by
    simp [targetRawT, secPart, secPartLast, List.append_assoc]
  rw [hEq, sectionFor_present (by decide) hX hW,
    takeUpToBracket_markerR _ hB0 ((r"DATA]").data)
      (show mDATA = '[' :: (r"DATA]").data from rfl)]

theorem sectionFor_enc_DATA (A B C D E : Txt) (hA : '[' ∉ A) (hB : '[' ∉ B)
    (hC : '[' ∉ C) (hD : '[' ∉ D) (hE : '[' ∉ E) :
    sectionFor mDATA (targetRawT (some A) (some B) (some C) (some D) (some E)) =
      some (pyStrip (spTxt ++ D ++ spTxt)) := by
  have hB0 : '[' ∉ spTxt ++ D ++ spTxt := by simp [spTxt, hD]
  have hX : SafePre mDATA ( mSCENARIO ++ (spTxt ++ (A ++ (spTxt ++ (mSTEPS ++ (spTxt ++
      (B ++ (spTxt ++ (mEXPECTED ++ (spTxt ++ (C ++ spTxt))))))))))) := by
    repeat' apply safePre_append
    all_goals
      first
      | exact safePre_noBrk_marker (by decide) (by decide)
      | exact safePre_noBrk_marker (by decide) hA
      | exact safePre_noBrk_marker (by decide) hB
      | exact safePre_noBrk_marker (by decide) hC
      | exact safePre_marker_of_ne (by decide) (by decide) (by decide)
  have hW : findSub mDATA (spTxt ++ D ++ spTxt ++ (mREQUIREMENTS ++ (spTxt ++ E))) = none := by
    apply findSub_of_safePre (by decide)
    repeat' apply safePre_append
    all_goals
      first
      | exact safePre_noBrk_marker (by decide) (by decide)
      | exact safePre_noBrk_marker (by decide) hD
      | exact safePre_noBrk_marker (by decide) hE
      | exact safePre_marker_of_ne (by decide) (by decide) (by decide)
  have hEq : targetRawT (some A) (some B) (some C) (some D) (some E) =
      ( mSCENARIO ++ (spTxt ++ (A ++ (spTxt ++ (mSTEPS ++ (spTxt ++ (B ++ (spTxt ++
      (mEXPECTED ++ (spTxt ++ (C ++ spTxt))))))))))) ++ mDATA ++
      (spTxt ++ D ++ spTxt ++ (mREQUIREMENTS ++ (spTxt ++ E))) := by
    simp [targetRawT, secPart, secPartLast, List.append_assoc]
  rw [hEq, sectionFor_present (by decide) hX hW,
    takeUpToBracket_markerR _ hB0 ((r"REQUIREMENTS]").data)
      (show mREQUIREMENTS = '[' :: (r"REQUIREMENTS]").data from rfl)]

theorem sectionFor_enc_REQUIREMENTS (A B C D E : Txt) (hA : '[' ∉ A) (hB : '[' ∉ B)
    (hC : '[' ∉ C) (hD : '[' ∉ D) (hE : '[' ∉ E) :
    sectionFor mREQUIREMENTS (targetRawT (some A) (some B) (some C) (some D) (some E)) =
      some (pyStrip (spTxt ++ E)) := by
  have hB0 : '[' ∉ spTxt ++ E := by simp [spTxt, hE]
  have hX : SafePre mREQUIREMENTS ( mSCENARIO ++ (spTxt ++ (A ++ (spTxt ++ (mSTEPS ++
      (spTxt ++ (B ++ (spTxt ++ (mEXPECTED ++ (spTxt ++ (C ++ (spTxt ++ (mDATA ++
      (spTxt ++ (D ++ spTxt))))))))))))))) := by
    repeat' apply safePre_append
    all_goals
      first
      | exact safePre_noBrk_marker (by decide) (by decide)
      | exact safePre_noBrk_marker (by decide) hA
      | exact safePre_noBrk_marker (by decide) hB
      | exact safePre_noBrk_marker (by decide) hC
      | exact safePre_noBrk_marker (by decide) hD
      | exact safePre_marker_of_ne (by decide) (by decide) (by decide)
  have hW : findSub mREQUIREMENTS (spTxt ++ E) = none := by
    apply findSub_of_safePre (by decide)
    apply safePre_append
    · exact safePre_noBrk_marker (by decide) (by decide)
    · exact safePre_noBrk_marker (by decide) hE
  have hEq : targetRawT (some A) (some B) (some C) (some D) (some E) =
      ( mSCENARIO ++ (spTxt ++ (A ++ (spTxt ++ (mSTEPS ++ (spTxt ++ (B ++ (spTxt ++
      (mEXPECTED ++ (spTxt ++ (C ++ (spTxt ++ (mDATA ++ (spTxt ++ (D ++ spTxt))))))))))))))) ++
      mREQUIREMENTS ++ (spTxt ++ E) := by
    simp [targetRawT, secPart, secPartLast, List.append_assoc]
  rw [hEq, sectionFor_present (by decide) hX hW, takeUpToBracket_all hB0]

/-- C1 (amended round-trip): for a record whose five optional target fields are
populated with well-formed values (no brackets, no newlines, no edge
whitespace, lists non-empty with non-empty elements, the data dump free of
pad/eos artifacts and re-parseable), the stored target_text is exactly the
marker encoding, and format_output recovers scenario and test_data exactly,
while steps, expected_results and requirements come back as the single
space-joined string, i.e. `[" ".join(original)]`, not the original list. -/
theorem C1_round_trip_joined (fd ft tt : Txt) (dom : Option Txt) (sc : Txt)
    (st ex rq : List Txt) (td : Json)
    (hsc : wfVal sc = true)
    (hst : st ≠ []) (hstv : ∀ s ∈ st, wfVal s = true ∧ s ≠ [])
    (hex : ex ≠ []) (hexv : ∀ s ∈ ex, wfVal s = true ∧ s ≠ [])
    (hrq : rq ≠ []) (hrqv : ∀ s ∈ rq, wfVal s = true ∧ s ≠ [])
    (htd : wfVal (jdumps td) = true)
    (htl : jloads (jdumps td) = some td)
    (hpad : containsSub padTok (targetRawT (some sc) (some (joinSp st))
      (some (joinSp ex)) (some (jdumps td)) (some (joinSp rq))) = false)
    (heos : containsSub eosTok (targetRawT (some sc) (some (joinSp st))
      (some (joinSp ex)) (some (jdumps td)) (some (joinSp rq))) = false) :
    (processItem (mkItem fd ft tt dom (some sc) (some st) (some ex) (some td)
        (some rq))).map Prod.snd =
      some (targetRawT (some sc) (some (joinSp st)) (some (joinSp ex))
        (some (jdumps td)) (some (joinSp rq))) ∧
    format_output (targetRawT (some sc) (some (joinSp st)) (some (joinSp ex))
        (some (jdumps td)) (some (joinSp rq))) =
      some { scenario := sc, steps := [joinSp st],
             expected_results := [joinSp ex], test_data := td,
             requirements := [joinSp rq] } := by
  obtain ⟨hscb, hscnl, hsch, hscr⟩ := wfVal_spec hsc
  obtain ⟨htdb, htdnl, htdh, htdr⟩ := wfVal_spec htd
  have hBne : joinSp st ≠ [] := joinSp_ne_nil hst (fun s hs => (hstv s hs).2)
  have hBb : '[' ∉ joinSp st :=
    notMem_joinSp (by decide) st (fun s hs => (wfVal_spec (hstv s hs).1).1)
  have hBnl : nlC ∉ joinSp st :=
    notMem_joinSp (by decide) st (fun s hs => (wfVal_spec (hstv s hs).1).2.1)
  have hBh : headNotWs (joinSp st) = true :=
    joinSp_headNotWs hst
      (fun s hs => ⟨(hstv s hs).2, (wfVal_spec (hstv s hs).1).2.2.1⟩)
  have hBr : headNotWs (joinSp st).reverse = true :=
    joinSp_lastNotWs hst
      (fun s hs => ⟨(hstv s hs).2, (wfVal_spec (hstv s hs).1).2.2.2⟩)
  have hCne : joinSp ex ≠ [] := joinSp_ne_nil hex (fun s hs => (hexv s hs).2)
  have hCb : '[' ∉ joinSp ex :=
    notMem_joinSp (by decide) ex (fun s hs => (wfVal_spec (hexv s hs).1).1)
  have hCnl : nlC ∉ joinSp ex :=
    notMem_joinSp (by decide) ex (fun s hs => (wfVal_spec (hexv s hs).1).2.1)
  have hCh : headNotWs (joinSp ex) = true :=
    joinSp_headNotWs hex
      (fun s hs => ⟨(hexv s hs).2, (wfVal_spec (hexv s hs).1).2.2.1⟩)
  have hCr : headNotWs (joinSp ex).reverse = true :=
    joinSp_lastNotWs hex
      (fun s hs => ⟨(hexv s hs).2, (wfVal_spec (hexv s hs).1).2.2.2⟩)
  have hEne : joinSp rq ≠ [] := joinSp_ne_nil hrq (fun s hs => (hrqv s hs).2)
  have hEb : '[' ∉ joinSp rq :=
    notMem_joinSp (by decide) rq (fun s hs => (wfVal_spec (hrqv s hs).1).1)
  have hEnl : nlC ∉ joinSp rq :=
    notMem_joinSp (by decide) rq (fun s hs => (wfVal_spec (hrqv s hs).1).2.1)
  have hEh : headNotWs (joinSp rq) = true :=
    joinSp_headNotWs hrq
      (fun s hs => ⟨(hrqv s hs).2, (wfVal_spec (hrqv s hs).1).2.2.1⟩)
  have hEr : headNotWs (joinSp rq).reverse = true :=
    joinSp_lastNotWs hrq
      (fun s hs => ⟨(hrqv s hs).2, (wfVal_spec (hrqv s hs).1).2.2.2⟩)
  have hhead : headNotWs (targetRawT (some sc) (some (joinSp st))
      (some (joinSp ex)) (some (jdumps td)) (some (joinSp rq))) = true := by
    have h1 : targetRawT (some sc) (some (joinSp st)) (some (joinSp ex))
        (some (jdumps td)) (some (joinSp rq)) =
        mSCENARIO ++ (spTxt ++ (sc ++ (spTxt ++ (mSTEPS ++ (spTxt ++
        (joinSp st ++ (spTxt ++ (mEXPECTED ++ (spTxt ++ (joinSp ex ++
        (spTxt ++ (mDATA ++ (spTxt ++ (jdumps td ++ (spTxt ++
        (mREQUIREMENTS ++ (spTxt ++ joinSp rq))))))))))))))))) := by
      simp [targetRawT, secPart, secPartLast, List.append_assoc]
    rw [h1, headNotWs_append _ (by decide)]
    decide
  have hErevne : (joinSp rq).reverse ≠ [] := by simpa using hEne
  have hrev : headNotWs (targetRawT (some sc) (some (joinSp st))
      (some (joinSp ex)) (some (jdumps td)) (some (joinSp rq))).reverse = true := by
    have h2 : targetRawT (some sc) (some (joinSp st)) (some (joinSp ex))
        (some (jdumps td)) (some (joinSp rq)) =
        ( mSCENARIO ++ (spTxt ++ (sc ++ (spTxt ++ (mSTEPS ++ (spTxt ++
        (joinSp st ++ (spTxt ++ (mEXPECTED ++ (spTxt ++ (joinSp ex ++
        (spTxt ++ (mDATA ++ (spTxt ++ (jdumps td ++ (spTxt ++
        (mREQUIREMENTS ++ spTxt))))))))))))))))) ++ joinSp rq := by
      simp [targetRawT, secPart, secPartLast, List.append_assoc]
    rw [h2, List.reverse_append, headNotWs_append _ hErevne]
    exact hEr
  have hstrip : pyStrip (targetRawT (some sc) (some (joinSp st))
      (some (joinSp ex)) (some (jdumps td)) (some (joinSp rq))) =
      targetRawT (some sc) (some (joinSp st)) (some (joinSp ex))
        (some (jdumps td)) (some (joinSp rq)) :=
    pyStrip_eq_self hhead hrev
  have hclean : stripArtifacts (targetRawT (some sc) (some (joinSp st))
      (some (joinSp ex)) (some (jdumps td)) (some (joinSp rq))) =
      targetRawT (some sc) (some (joinSp st)) (some (joinSp ex))
        (some (jdumps td)) (some (joinSp rq)) := by
    unfold stripArtifacts
    rw [replaceSub_noop hpad, replaceSub_noop heos]
  have hs1 := sectionFor_enc_SCENARIO sc (joinSp st) (joinSp ex) (jdumps td)
    (joinSp rq) hscb hBb hCb htdb hEb
  have hs2 := sectionFor_enc_STEPS sc (joinSp st) (joinSp ex) (jdumps td)
    (joinSp rq) hscb hBb hCb htdb hEb
  have hs3 := sectionFor_enc_EXPECTED sc (joinSp st) (joinSp ex) (jdumps td)
    (joinSp rq) hscb hBb hCb htdb hEb
  have hs4 := sectionFor_enc_DATA sc (joinSp st) (joinSp ex) (jdumps td)
    (joinSp rq) hscb hBb hCb htdb hEb
  have hs5 := sectionFor_enc_REQUIREMENTS sc (joinSp st) (joinSp ex)
    (jdumps td) (joinSp rq) hscb hBb hCb htdb hEb
  constructor
  · rw [processItem_mkItem]
    simp only [Option.map_some']
    exact congrArg some hstrip
  · have hdata : dataSectionRaw (targetRawT (some sc) (some (joinSp st))
        (some (joinSp ex)) (some (jdumps td)) (some (joinSp rq))) = jdumps td := by
      unfold dataSectionRaw
      rw [hclean, hs4]
      simp only [Option.getD_some]
      exact pyStrip_sp_pad htdh htdr
    simp only [format_output, hdata, htl, hclean, hs1, hs2, hs3, hs5,
      Option.getD_some]
    rw [pyStrip_sp_pad hsch hscr, pyStrip_sp_pad hBh hBr, pyStrip_sp_pad hCh hCr,
      pyStrip_sp_left hEh hEr,
      splitLinesClean_single hBnl hBne hBh hBr,
      splitLinesClean_single hCnl hCne hCh hCr,
      splitLinesClean_single hEnl hEne hEh hEr]

/-- C4 counterexample: a record whose `scenario` key is present but empty
still emits the `[SCENARIO]` marker — the code checks key presence, not
non-emptiness, so the target text consists of the bare marker. -/
theorem C4_counterexample :
    (processItem (mkItem (r"f").data (r"t").data (r"u").data none
        (some []) none none none none)).map Prod.snd = some mSCENARIO ∧
    containsSub mSCENARIO mSCENARIO = true := by
  exact ⟨rfl, rfl⟩

/-- C4 witness: the marker/presence equivalences at a concrete record with
only `scenario` populated. -/
theorem C4_witness :
    (containsSub mSCENARIO ((r"[SCENARIO] ok").data) = true ↔
      (some ((r"ok").data)).isSome = true) ∧
    (containsSub mSTEPS ((r"[SCENARIO] ok").data) = true ↔
      (none : Option (List Txt)).isSome = true) ∧
    (containsSub mEXPECTED ((r"[SCENARIO] ok").data) = true ↔
      (none : Option (List Txt)).isSome = true) ∧
    (containsSub mDATA ((r"[SCENARIO] ok").data) = true ↔
      (none : Option Json).isSome = true) ∧
    (containsSub mREQUIREMENTS ((r"[SCENARIO] ok").data) = true ↔
      (none : Option (List Txt)).isSome = true) := by
  exact C4_marker_iff_present (r"f").data (r"t").data (r"u").data none
    (some ((r"ok").data)) none none none none
    (fun v hv => by injection hv with h2; subst h2; decide)
    (fun l hl => by cases hl) (fun l hl => by cases hl)
    (fun j hj => by cases hj) (fun l hl => by cases hl)
    ((r"[SCENARIO] ok").data) rfl

set_option maxRecDepth 20000 in
/-- C1 counterexample: for a record with two steps, decoding the stored
target text yields steps as the single space-joined string, not the original
two-element list — the round trip of the original claim fails. -/
theorem C1_counterexample :
    (processItem (mkItem (r"f").data (r"t").data (r"u").data none
        (some ((r"Login").data))
        (some [(r"Step one").data, (r"Step two").data])
        (some [(r"ok").data])
        (some (Json.obj (JsonKVs.cons ((r"k").data)
          (Json.jstr ((r"v").data)) JsonKVs.nil)))
        (some [(r"REQ1").data]))).map
        (fun p => (format_output p.2).map GenResult.steps) =
      some (some [(r"Step one Step two").data]) ∧
    [(r"Step one Step two").data] ≠ [(r"Step one").data, (r"Step two").data] := by
  exact ⟨rfl, by decide⟩

set_option maxRecDepth 40000 in
/-- C1 witness: the amended round trip at a concrete fully-populated record. -/
theorem C1_witness :
    (processItem (mkItem (r"f").data (r"t").data (r"u").data none
        (some ((r"Login").data))
        (some [(r"Step one").data, (r"Step two").data])
        (some [(r"ok").data])
        (some (Json.obj (JsonKVs.cons ((r"k").data)
          (Json.jstr ((r"v").data)) JsonKVs.nil)))
        (some [(r"REQ1").data]))).map Prod.snd =
      some (targetRawT (some ((r"Login").data))
        (some (joinSp [(r"Step one").data, (r"Step two").data]))
        (some (joinSp [(r"ok").data]))
        (some (jdumps (Json.obj (JsonKVs.cons ((r"k").data)
          (Json.jstr ((r"v").data)) JsonKVs.nil))))
        (some (joinSp [(r"REQ1").data]))) ∧
    format_output (targetRawT (some ((r"Login").data))
        (some (joinSp [(r"Step one").data, (r"Step two").data]))
        (some (joinSp [(r"ok").data]))
        (some (jdumps (Json.obj (JsonKVs.cons ((r"k").data)
          (Json.jstr ((r"v").data)) JsonKVs.nil))))
        (some (joinSp [(r"REQ1").data]))) =
      some { scenario := (r"Login").data,
             steps := [joinSp [(r"Step one").data, (r"Step two").data]],
             expected_results := [joinSp [(r"ok").data]],
             test_data := Json.obj (JsonKVs.cons ((r"k").data)
               (Json.jstr ((r"v").data)) JsonKVs.nil),
             requirements := [joinSp [(r"REQ1").data]] } := by
  exact C1_round_trip_joined (r"f").data (r"t").data (r"u").data none
    ((r"Login").data) [(r"Step one").data, (r"Step two").data]
    [(r"ok").data] [(r"REQ1").data]
    (Json.obj (JsonKVs.cons ((r"k").data) (Json.jstr ((r"v").data)) JsonKVs.nil))
    (by decide) (by decide) (by decide) (by decide) (by decide) (by decide)
    (by decide) (by decide) rfl rfl rfl
